import Mathlib

/-!
Verification of the truck boundary-representation tessellation engine.

This file shallowly embeds the Rust sources
`truck-geometry/src/decorators/curve_on_surface.rs` and
`truck-meshalgo/src/tessellation/triangulation.rs` into Lean 4.

Scalars: the Rust code computes with `f64`; the embedding uses `ℚ`, which keeps
every definition computable and every arithmetic claim decidable.  Machinery
from sibling crates of the same repository that is not part of the given
sources (truck-topology, truck-base, truck-polymesh internals, truck-geotrait)
is modelled from the specification and is marked as such in doc comments.
External crates (spade, rayon) are modelled as explicit interface parameters.
-/

set_option linter.unusedVariables false

namespace Truck

/-- A 2D point or vector, componentwise rationals (models `Point2`/`Vector2`). -/
abbrev Pt2 := ℚ × ℚ

/-- A 3D point or vector, componentwise rationals (models `Point3`/`Vector3`). -/
abbrev Pt3 := ℚ × ℚ × ℚ

/-! ## PCurve: curve on surface (`curve_on_surface.rs`) -/

/-- Hint for 1-dimensional parameter search (`SPHint1D` of truck-geotrait;
modelled from the spec: hint is a start parameter, a pre-search range, or
nothing). -/
inductive SPHint1D where
  | Parameter (p : ℚ)
  | Range (a b : ℚ)
  | NoHint
deriving DecidableEq, Repr

/-- Hint for 2-dimensional parameter search (`SPHint2D` of truck-geotrait;
modelled from the spec). -/
inductive SPHint2D where
  | Parameter (u v : ℚ)
  | Range (urange vrange : ℚ × ℚ)
  | NoHint
deriving DecidableEq, Repr

/-- The capabilities of a 2D parametric curve consumed by `PCurve`
(`ParametricCurve2D + SearchParameter<D1>`): point, first and second
derivative, and parameter inversion. -/
structure Curve2D where
  subs : ℚ → Pt2
  der : ℚ → Pt2
  der2 : ℚ → Pt2
  search_parameter : Pt2 → SPHint1D → ℕ → Option ℚ

/-- The capabilities of a parametric surface consumed by `PCurve`
(`ParametricSurface + SearchParameter<D2>`): point, the five partial
derivatives, and parameter inversion. -/
structure SurfaceD2 where
  subs : ℚ → ℚ → Pt3
  uder : ℚ → ℚ → Pt3
  vder : ℚ → ℚ → Pt3
  uuder : ℚ → ℚ → Pt3
  uvder : ℚ → ℚ → Pt3
  vvder : ℚ → ℚ → Pt3
  search_parameter : Pt3 → SPHint2D → ℕ → Option (ℚ × ℚ)

/-- `PCurve` composes a 2D parameter-domain curve with a surface
(struct `PCurve` of truck-geometry). -/
structure PCurve where
  curve : Curve2D
  surface : SurfaceD2

/-- `impl ParametricCurve for PCurve`, `fn subs`:
evaluate the curve, then the surface at the resulting parameters. -/
def PCurve.subs (self : PCurve) (t : ℚ) : Pt3 :=
  let pt := self.curve.subs t
  self.surface.subs pt.1 pt.2

/-- `impl ParametricCurve for PCurve`, `fn der`:
`uder(pt) * der[0] + vder(pt) * der[1]`. -/
def PCurve.der (self : PCurve) (t : ℚ) : Pt3 :=
  let pt := self.curve.subs t
  let der := self.curve.der t
  der.1 • self.surface.uder pt.1 pt.2 + der.2 • self.surface.vder pt.1 pt.2

/-- `impl ParametricCurve for PCurve`, `fn der2`:
`uuder*d0*d0 + uvder*d0*d1*2 + vvder*d1*d1 + uder*dd0 + vder*dd1`. -/
def PCurve.der2 (self : PCurve) (t : ℚ) : Pt3 :=
  let pt := self.curve.subs t
  let der := self.curve.der t
  let der2 := self.curve.der2 t
  (der.1 * der.1) • self.surface.uuder pt.1 pt.2
    + (der.1 * der.2 * 2) • self.surface.uvder pt.1 pt.2
    + (der.2 * der.2) • self.surface.vvder pt.1 pt.2
    + der2.1 • self.surface.uder pt.1 pt.2
    + der2.2 • self.surface.vder pt.1 pt.2

/-- Pre-search sampling density (constant `PRESEARCH_DIVISION` of truck-geotrait;
modelled from the spec: a fixed sampling density used to seed Newton iteration;
the crate sets it to 50). -/
def PRESEARCH_DIVISION : ℕ := 50

/-- The range-hint conversion inside `SearchParameter<D1> for PCurve`:
sample the 2D curve at `y` and at `PRESEARCH_DIVISION` further parameters
`x + (y-x)*i/PRESEARCH_DIVISION`, folding componentwise min/max into an
axis-aligned box. -/
def PCurve.range_to_shint (self : PCurve) (x y : ℚ) : SPHint2D :=
  let p := self.curve.subs y
  let ranges := (List.range PRESEARCH_DIVISION).foldl
    (fun acc (i : ℕ) =>
      let t := x + (y - x) * (i : ℚ) / (PRESEARCH_DIVISION : ℚ)
      let p := self.curve.subs t
      ((min acc.1.1 p.1, max acc.1.2 p.1), (min acc.2.1 p.2, max acc.2.2 p.2)))
    ((p.1, p.1), (p.2, p.2))
  SPHint2D.Range ranges.1 ranges.2

/-- Conversion of the 1D hint into a 2D hint on the surface, as in the source
match of `PCurve::search_parameter`. -/
def PCurve.to_shint (self : PCurve) (hint : SPHint1D) : SPHint2D :=
  match hint with
  | .Parameter h =>
    let p := self.curve.subs h
    SPHint2D.Parameter p.1 p.2
  | .Range x y => self.range_to_shint x y
  | .NoHint => SPHint2D.NoHint

/-- `impl SearchParameter<D1> for PCurve`, `fn search_parameter`: convert the
hint, invert on the surface (propagating failure), then invert on the 2D
curve at the resulting UV point, with the same trials budget. -/
def PCurve.search_parameter (self : PCurve) (point : Pt3) (hint : SPHint1D)
    (trials : ℕ) : Option ℚ :=
  let shint := self.to_shint hint
  match self.surface.search_parameter point shint trials with
  | some (x, y) => self.curve.search_parameter (x, y) hint trials
  | none => none

/-- The `PRESEARCH_DIVISION + 1` curve parameters the range hint conversion
samples: `y` itself (the fold seed) and `x + (y-x)*i/PRESEARCH_DIVISION` for
`i < PRESEARCH_DIVISION`. -/
def presearch_params (x y : ℚ) : List ℚ :=
  y :: (List.range PRESEARCH_DIVISION).map
    (fun (i : ℕ) => x + (y - x) * (i : ℚ) / (PRESEARCH_DIVISION : ℚ))

/-- Minimum of a list of rationals, seeded by its head (`0` for the empty
list, which never occurs in use). -/
def headMin : List ℚ → ℚ
  | [] => 0
  | a :: l => l.foldl min a

/-- Maximum of a list of rationals, seeded by its head. -/
def headMax : List ℚ → ℚ
  | [] => 0
  | a :: l => l.foldl max a

/-! ## Meshable surfaces and search fallback (`triangulation.rs`) -/

/-- The capability record of a surface as consumed by the tessellator
(trait `PreMeshableSurface`/`MeshableSurface`/`RobustMeshableSurface` of
truck-meshalgo, modelled from the spec: point, normal, optional periods,
parameter division, and the two parameter inverters). -/
structure MSurface where
  subs : ℚ → ℚ → Pt3
  normal : ℚ → ℚ → Pt3
  u_period : Option ℚ
  v_period : Option ℚ
  parameter_division : ((ℚ × ℚ) × (ℚ × ℚ)) → ℚ → List ℚ × List ℚ
  search_parameter : Pt3 → Option Pt2 → ℕ → Option Pt2
  search_nearest_parameter : Pt3 → Option Pt2 → ℕ → Option Pt2

/-- `fn by_search_parameter`: hinted exact search with 100 trials, falling
back to a hint-free search with 100 trials. -/
def by_search_parameter (surface : MSurface) (point : Pt3)
    (hint : Option Pt2) : Option Pt2 :=
  (surface.search_parameter point hint 100).orElse
    (fun _ => surface.search_parameter point none 100)

/-- `fn by_search_nearest_parameter`: hinted nearest search with 100 trials,
falling back to a hint-free nearest search with 100 trials. -/
def by_search_nearest_parameter (surface : MSurface) (point : Pt3)
    (hint : Option Pt2) : Option Pt2 :=
  (surface.search_nearest_parameter point hint 100).orElse
    (fun _ => surface.search_nearest_parameter point none 100)

/-! ## Polyline assembly in parameter space (`triangulation.rs`) -/

/-- Tolerance constant of truck-base (modelled from the spec: "within
tolerance"; the crate sets `TOLERANCE = 1.0e-7`). -/
def TOLERANCE : ℚ := 1 / 10000000

/-- `so_small` of truck-base: the absolute value is below `TOLERANCE`
(modelled from the spec). -/
def so_small (x : ℚ) : Bool := decide (|x| < TOLERANCE)

/-- `PolylineCurve` of truck-polymesh: a newtype over a vector of 3D points. -/
structure PolylineCurve where
  points : List Pt3
deriving DecidableEq, Repr

/-- `Vec::pop` as used in `add_wire`: drop the last point (modelled from the
spec: "Each edge contributes its polyline minus its last point"). -/
def PolylineCurve.pop (p : PolylineCurve) : PolylineCurve := ⟨p.points.dropLast⟩

/-- `Invertible::inverse` for `PolylineCurve` (modelled from the spec:
reverse the order of the points). -/
def PolylineCurve.inverse (p : PolylineCurve) : PolylineCurve := ⟨p.points.reverse⟩

/-- Struct `Polyline`: a not-necessarily-connected polyline in the parameter
plane, kept as positions plus index pairs. -/
structure Polyline where
  positions : List Pt2 := []
  indices : List (ℕ × ℕ) := []
deriving DecidableEq, Repr

/-- The periodic unwrapping match inside `add_wire`: given a freshly inverted
coordinate `h`, the previous coordinate `prev` and the period `p`, compare
the distances of `h`, `h - p`, `h + p` to `prev` and pick per the source
match on `(d0 < d1, d1 < d2, d2 < d0)`.  The source marks the pattern
`(true, true, true)` `unreachable!()`; it is proved impossible below, and the
model returns `h` there. -/
def adjust_period (h prev p : ℚ) : ℚ :=
  let d0 := |h - prev|
  let d1 := |h - p - prev|
  let d2 := |h + p - prev|
  match decide (d0 < d1), decide (d1 < d2), decide (d2 < d0) with
  | false, true, _ => h - p
  | _, false, true => h + p
  | true, _, false => h
  | false, false, false => h
  | true, true, true => h

/-- Stateful short-circuiting fold: Rust `Iterator::all` over a closure with
side effects.  Returns the state at the stopping point and whether every
element satisfied the closure. -/
def foldAll {σ α : Type} (f : σ → α → σ × Bool) : σ → List α → σ × Bool
  | s, [] => (s, true)
  | s, a :: l =>
    match f s a with
    | (s1, true) => foldAll f s1 l
    | (s1, false) => (s1, false)

/-- The per-wire mutable state of `add_wire`: the positions vector being
extended and the `previous` UV value. -/
structure WireState where
  positions : List Pt2
  previous : Option Pt2
deriving DecidableEq, Repr

/-- The body of the inner `all` of `add_wire`, for one 3D point `pt`:
`hint = sp(surface, pt, hint)`, unwrap `u` against `u_period` and the
previous `u`, unwrap `v` against `v_period` and the previous `v`, set
`previous = hint`, and push the position on success.  The second state
component is the per-edge `hint`. -/
def add_point (S : MSurface) (sp : MSurface → Pt3 → Option Pt2 → Option Pt2)
    (st : WireState × Option Pt2) (pt : Pt3) : (WireState × Option Pt2) × Bool :=
  match sp S pt st.2 with
  | none => ((⟨st.1.positions, none⟩, none), false)
  | some q =>
    let u := match S.u_period, st.1.previous with
      | some up, some prev => adjust_period q.1 prev.1 up
      | _, _ => q.1
    let v := match S.v_period, st.1.previous with
      | some vp, some prev => adjust_period q.2 prev.2 vp
      | _, _ => q.2
    ((⟨st.1.positions ++ [(u, v)], some (u, v)⟩, some (u, v)), true)

/-- The body of the outer `all` of `add_wire`, for one edge polyline:
pop the last point, add its length to the counter, and process the points
with a fresh `hint = None`. -/
def add_edge (S : MSurface) (sp : MSurface → Pt3 → Option Pt2 → Option Pt2)
    (st : WireState × ℕ) (poly_edge : PolylineCurve) : (WireState × ℕ) × Bool :=
  let popped := poly_edge.pop
  let counter := st.2 + popped.points.length
  let r := foldAll (add_point S sp) (st.1, none) popped.points
  ((r.1.1, counter), r.2)

/-- `Polyline::add_wire`: project a wire of edge polylines into the parameter
domain, then extend `indices` with the modular-wrap closed loop over the
`counter` points counted for this wire (the extension happens even when the
projection failed part-way, exactly as in the source). -/
def Polyline.add_wire (self : Polyline) (S : MSurface) (wire : List PolylineCurve)
    (sp : MSurface → Pt3 → Option Pt2 → Option Pt2) : Polyline × Bool :=
  let len := self.positions.length
  let r := foldAll (add_edge S sp) (⟨self.positions, none⟩, 0) wire
  let counter := r.1.2
  ({ positions := r.1.1.positions,
     indices := self.indices ++
       (List.range counter).map (fun i => (len + i, len + (i + 1) % counter)) },
   r.2)

/-! ## Domain inclusion test (`Polyline::include`)

The ray direction `r = (cos θ, sin θ)` with `θ = 2π·hash1(c)` uses
`HashGen::hash1` of truck-base (repository code outside the given sources)
and transcendental functions; it is modelled from the spec as an abstract
deterministic direction function `ray : Pt2 → Pt2`. -/

/-- The per-segment scalars of `Polyline::include`: `s0 = r × a`,
`s1 = r × b`, `s2 = a × b` (2D cross products of the endpoints relative to
`c`), and the intersection parameter `x = s2 / (s1 - s0)`.  Rust indexing
`positions[i]` panics out of range; the model reads the origin there, and
every use below is in range. -/
def include_vals (ray : Pt2 → Pt2) (self : Polyline) (c : Pt2)
    (edge : ℕ × ℕ) : ℚ × ℚ × ℚ :=
  let r := ray c
  let a := self.positions.getD edge.1 (0, 0) - c
  let b := self.positions.getD edge.2 (0, 0) - c
  let s0 := r.1 * a.2 - r.2 * a.1
  let s1 := r.1 * b.2 - r.2 * b.1
  let s2 := a.1 * b.2 - a.2 * b.1
  (s0, s1, s2 / (s1 - s0))

/-- The `try_fold` body of `Polyline::include`: abort (`none`) on the on-edge
case, otherwise adjust the winding counter. -/
def include_step (ray : Pt2 → Pt2) (self : Polyline) (c : Pt2) (counter : ℤ)
    (edge : ℕ × ℕ) : Option ℤ :=
  let v := include_vals ray self c edge
  let s0 := v.1
  let s1 := v.2.1
  let x := v.2.2
  if so_small x ∧ s0 * s1 < 0 then none
  else if x > 0 ∧ s0 ≤ 0 ∧ s1 > 0 then some (counter + 1)
  else if x > 0 ∧ s0 ≥ 0 ∧ s1 < 0 then some (counter - 1)
  else some counter

/-- `Polyline::include`: winding test by a hashed-direction ray; `true` iff
the fold completes with a positive counter, `false` on the on-edge abort. -/
def Polyline.include (self : Polyline) (ray : Pt2 → Pt2) (c : Pt2) : Bool :=
  match self.indices.foldlM (include_step ray self c) (0 : ℤ) with
  | some counter => decide (0 < counter)
  | none => false

/-- Whether a segment triggers the on-edge abort of `include` (the claim's
"`|x|` within tolerance and `s0·s1 < 0`"). -/
def include_on_edge (ray : Pt2 → Pt2) (self : Polyline) (c : Pt2)
    (edge : ℕ × ℕ) : Prop :=
  so_small (include_vals ray self c edge).2.2 = true ∧
  (include_vals ray self c edge).1 * (include_vals ray self c edge).2.1 < 0

instance (ray : Pt2 → Pt2) (self : Polyline) (c : Pt2) (edge : ℕ × ℕ) :
    Decidable (include_on_edge ray self c edge) := by
  unfold include_on_edge; infer_instance

/-- The winding contribution of a segment per the claim: `+1` when
`x > 0 ∧ s0 ≤ 0 ∧ s1 > 0`, `-1` when `x > 0 ∧ s0 ≥ 0 ∧ s1 < 0`, else `0`. -/
def include_contrib (ray : Pt2 → Pt2) (self : Polyline) (c : Pt2)
    (edge : ℕ × ℕ) : ℤ :=
  let v := include_vals ray self c edge
  let s0 := v.1
  let s1 := v.2.1
  let x := v.2.2
  if x > 0 ∧ s0 ≤ 0 ∧ s1 > 0 then 1
  else if x > 0 ∧ s0 ≥ 0 ∧ s1 < 0 then -1
  else 0

/-! ## Constrained Delaunay tessellation (`triangulation.rs`) -/

/-- Output mesh (`PolygonMesh` of truck-polymesh restricted to the triangle
faces the tessellator produces; a face vertex is an index triple
(position, uv, normal)). -/
structure PolygonMesh where
  positions : List Pt3
  uv_coords : List Pt2
  normals : List Pt3
  tri_faces : List ((ℕ × ℕ × ℕ) × (ℕ × ℕ × ℕ) × (ℕ × ℕ × ℕ))
deriving DecidableEq, Repr

/-- The external machinery of the tessellator, modelled as an abstract
interface: the spade constrained Delaunay triangulation (`T` is the CDT
state, `H` a vertex handle; `insert` may reject a point, yielding no
handle), the hashed ray direction of truck-base `HashGen`, and the
`make_face_compatible_to_normal` pass of the mesh filters (repository code
outside the given sources, modelled from the spec). -/
structure MeshKit (T H : Type) where
  empty : T
  insert : T → Pt2 → T × Option H
  can_add_constraint : T → H → H → Bool
  add_constraint : T → H → H → T
  vertices : T → List (H × Pt2)
  inner_faces : T → List ((H × Pt2) × (H × Pt2) × (H × Pt2))
  ray : Pt2 → Pt2
  normal_filter : PolygonMesh → PolygonMesh

variable {T H : Type}

/-- The `filter_map` collection at the start of `Polyline::insert_to`:
insert every position, keeping the handles of accepted points in a single
compacted vector. -/
def build_handles (K : MeshKit T H) (t : T) : List Pt2 → T × List H
  | [] => (t, [])
  | pt :: rest =>
    match K.insert t pt with
    | (t1, some hd) =>
      let r := build_handles K t1 rest
      (r.1, hd :: r.2)
    | (t1, none) => build_handles K t1 rest

/-- The per-polyline-index insertion outcomes: for each position in order,
the handle the CDT returns for it (`none` when rejected), threading the CDT
state through the same insertion sequence as `build_handles`. -/
def insert_results (K : MeshKit T H) (t : T) : List Pt2 → List (Option H)
  | [] => []
  | pt :: rest =>
    let r := K.insert t pt
    r.2 :: insert_results K r.1 rest

/-- The constraint walk of `Polyline::insert_to` over the segment list, with
the pending-vertex fallback.  `poly2tri` is indexed as in the source
(`poly2tri[a[0]]`, `poly2tri[a[1]]`); Rust panics when an index is out of
range, the model reads `default` there, and the theorems below only
evaluate it in range. -/
def constraint_walk [Inhabited H] (K : MeshKit T H) (poly2tri : List H)
    (t : T) (indices : List (ℕ × ℕ)) : T :=
  (indices.foldl
    (fun (st : T × Option ℕ) a =>
      match st.2 with
      | some p =>
        if K.can_add_constraint st.1 (poly2tri.getD p default)
            (poly2tri.getD a.2 default) then
          (K.add_constraint st.1 (poly2tri.getD p default)
            (poly2tri.getD a.2 default), none)
        else (st.1, some p)
      | none =>
        if K.can_add_constraint st.1 (poly2tri.getD a.1 default)
            (poly2tri.getD a.2 default) then
          (K.add_constraint st.1 (poly2tri.getD a.1 default)
            (poly2tri.getD a.2 default), none)
        else (st.1, some a.1))
    (t, none)).1

/-- `Polyline::insert_to`: insert the boundary positions, then walk the
segments adding constraints with the pending fallback. -/
def Polyline.insert_to [Inhabited H] (self : Polyline) (K : MeshKit T H)
    (t : T) : T :=
  let r := build_handles K t self.positions
  constraint_walk K r.2 r.1 self.indices

/-- The walk described by the claim, operating on a list of remembered
handles indexed by polyline index: add the constraint between the handles of
the segment endpoints when legal, otherwise remember the start as pending;
with a pending vertex, attempt pending-to-current-end and clear pending only
on success. -/
def pending_walk_spec [Inhabited H] (K : MeshKit T H) (handles : List H)
    (t : T) (indices : List (ℕ × ℕ)) : T :=
  (indices.foldl
    (fun (st : T × Option ℕ) a =>
      match st.2 with
      | some p =>
        if K.can_add_constraint st.1 (handles.getD p default)
            (handles.getD a.2 default) then
          (K.add_constraint st.1 (handles.getD p default)
            (handles.getD a.2 default), none)
        else (st.1, some p)
      | none =>
        if K.can_add_constraint st.1 (handles.getD a.1 default)
            (handles.getD a.2 default) then
          (K.add_constraint st.1 (handles.getD a.1 default)
            (handles.getD a.2 default), none)
        else (st.1, some a.1))
    (t, none)).1

/-- The bounding box of the boundary positions as the parameter range passed
to `parameter_division` (`BoundingBox` of truck-base, modelled from the
spec: componentwise min/max; degenerate at the origin for an empty list,
which the callers never produce). -/
def bounding_box (pts : List Pt2) : (ℚ × ℚ) × (ℚ × ℚ) :=
  ((headMin (pts.map Prod.fst), headMax (pts.map Prod.fst)),
   (headMin (pts.map Prod.snd), headMax (pts.map Prod.snd)))

/-- `fn insert_surface`: ask the surface for parameter divisions over the
bounding box of the boundary, form the Cartesian product, keep the points
the inclusion test accepts, and insert them (rejections ignored). -/
def insert_surface (K : MeshKit T H) (t : T) (surface : MSurface)
    (polyline : Polyline) (tol : ℚ) : T :=
  let range := bounding_box polyline.positions
  let d := surface.parameter_division range tol
  let pts := d.1.flatMap (fun u => d.2.map (fun v => ((u, v) : Pt2)))
  (pts.filter (fun pt => polyline.include K.ray pt)).foldl
    (fun acc pt => (K.insert acc pt).1) t

/-- `fn triangulation_into_polymesh`: evaluate position, uv and normal for
every CDT vertex, keep inner faces whose centroid passes the inclusion test,
and emit index triples through the handle-to-index map.  The handle map
lookup of the source (`vmap[..]`) panics for unknown handles; the model
returns the list length there, and spade guarantees the handles of inner
faces are among the vertices. -/
def triangulation_into_polymesh [DecidableEq H] (K : MeshKit T H) (t : T)
    (surface : MSurface) (polyline : Polyline) : PolygonMesh :=
  let verts := K.vertices t
  let positions := verts.map (fun v => surface.subs v.2.1 v.2.2)
  let uv_coords := verts.map (fun v => v.2)
  let normals := verts.map (fun v => surface.normal v.2.1 v.2.2)
  let vmap : H → ℕ := fun h => (verts.map Prod.fst).indexOf h
  let tri_faces :=
    ((K.inner_faces t).filter (fun tri =>
      let c : Pt2 := ((tri.1.2.1 + tri.2.1.2.1 + tri.2.2.2.1) / 3,
                      (tri.1.2.2 + tri.2.1.2.2 + tri.2.2.2.2) / 3)
      polyline.include K.ray c)).map (fun tri =>
      let i0 := vmap tri.1.1
      let i1 := vmap tri.2.1.1
      let i2 := vmap tri.2.2.1
      (((i0, i0, i0) : ℕ × ℕ × ℕ), ((i1, i1, i1) : ℕ × ℕ × ℕ),
        ((i2, i2, i2) : ℕ × ℕ × ℕ)))
  { positions := positions, uv_coords := uv_coords, normals := normals,
    tri_faces := tri_faces }

/-- `fn trimming_tessellation`: boundary into a fresh CDT, interior sampling
points, conversion to a mesh, and the normal-consistency pass. -/
def trimming_tessellation [Inhabited H] [DecidableEq H] (K : MeshKit T H)
    (surface : MSurface) (polyline : Polyline) (tol : ℚ) : PolygonMesh :=
  let t0 := polyline.insert_to K K.empty
  let t1 := insert_surface K t0 surface polyline tol
  let mesh := triangulation_into_polymesh K t1 surface polyline
  K.normal_filter mesh

/-! ## Topology model and shell drivers (`triangulation.rs`)

The topology types (truck-topology) are repository code outside the given
sources and are modelled from the spec: a vertex has a stable identity and a
point payload; an edge has a stable identity, absolute front/back vertices
and a curve payload; an edge reference carries an orientation flag and reads
its payload through lazy inversion; a face carries absolute boundary wires,
an orientation flag and a surface payload, and `invert` flips the flag.
Duplication preserves identity, so cloned entities keep their ids. -/

/-- Topological vertex: identity plus point payload. -/
structure TVertex where
  vid : ℕ
  pt : Pt3
deriving DecidableEq, Repr

/-- Absolute topological edge: identity, absolute front/back, curve payload. -/
structure TEdge (C : Type) where
  eid : ℕ
  front : TVertex
  back : TVertex
  curve : C
deriving DecidableEq, Repr

/-- An edge as referenced from a wire: absolute edge plus orientation flag
(`Edge` of truck-topology). -/
structure OEdge (C : Type) where
  edge : TEdge C
  orientation : Bool
deriving DecidableEq, Repr

/-- `Edge::inverse`: flip the orientation flag. -/
def OEdge.inverse {C : Type} (e : OEdge C) : OEdge C := ⟨e.edge, !e.orientation⟩

/-- `Edge::oriented_curve`: the curve payload as-is when the orientation is
true, inverted otherwise; the inversion operation is supplied for the
payload type. -/
def OEdge.oriented_curve {C : Type} (inv : C → C) (e : OEdge C) : C :=
  if e.orientation then e.edge.curve else inv e.edge.curve

/-- A wire: ordered list of oriented edges. -/
abbrev TWire (C : Type) := List (OEdge C)

/-- Topological face: absolute boundary wires, orientation flag, surface
payload. -/
structure TFace (C S : Type) where
  boundaries : List (TWire C)
  orientation : Bool
  surface : S
deriving DecidableEq, Repr

/-- `Face::invert`: flip the orientation flag (payloads are read through the
flag lazily). -/
def TFace.invert {C S : Type} (f : TFace C S) : TFace C S :=
  { f with orientation := !f.orientation }

/-- A shell: list of faces. -/
abbrev TShell (C S : Type) := List (TFace C S)

/-- `Vertex::mapped(Point3::clone)`: the clone with the same payload
(identity preserved in the model, matching the spec's identity-preserving
duplication). -/
def mapped_vertex (v : TVertex) : TVertex := ⟨v.vid, v.pt⟩

/-- All oriented edge occurrences of a shell (`Shell::edge_iter`). -/
def shellEdges {C S : Type} (shell : TShell C S) : List (OEdge C) :=
  shell.flatMap (fun f => f.boundaries.flatMap id)

/-- All vertex occurrences of a shell (`Shell::vertex_iter`: the ends of the
edges). -/
def shellVertices {C S : Type} (shell : TShell C S) : List TVertex :=
  (shellEdges shell).flatMap (fun e => [e.edge.front, e.edge.back])

/-- The capabilities of a tessellatable curve type (`PolylineableCurve`:
`parameter_range` of the curve, `PolylineCurve::from_curve` of
truck-polymesh, and `Invertible::inverse`; the latter two are repository
code outside the given sources, modelled from the spec as abstract
operations). -/
structure CurveKit (C : Type) where
  parameter_range : C → ℚ × ℚ
  from_curve : C → (ℚ × ℚ) → ℚ → PolylineCurve
  inverse : C → C

variable {C : Type}

/-- The edge produced for one identity by both drivers'
`Edge::debug_new(v0, v1, poly)`: cloned end vertices and the polyline
approximation of the curve over its parameter range, with orientation true
(identity preserved in the model). -/
def new_edge (ck : CurveKit C) (tol : ℚ) (e : TEdge C) : OEdge PolylineCurve :=
  ⟨⟨e.eid, mapped_vertex e.front, mapped_vertex e.back,
    ck.from_curve e.curve (ck.parameter_range e.curve) tol⟩, true⟩

/-- The junk results of a failed map lookup (`unwrap` panics in Rust; the
lookups are proved to succeed under the well-formedness hypotheses). -/
def junk_vertex : TVertex := ⟨0, (0, 0, 0)⟩

/-- Junk edge for a failed `edge_map` lookup, see `junk_vertex`. -/
def junk_edge : OEdge PolylineCurve :=
  ⟨⟨0, junk_vertex, junk_vertex, ⟨[]⟩⟩, true⟩

/-- The per-face mesh payload computation shared by the drivers: fold
`add_wire` over the face's rebuilt wires short-circuiting on failure
(`wires.iter().all(..)`), reading each new edge's polyline through
`oriented_curve`; on success, tessellate the assembled polyline. -/
def face_polygon [Inhabited H] [DecidableEq H] (K : MeshKit T H)
    (sp : MSurface → Pt3 → Option Pt2 → Option Pt2) (surface : MSurface)
    (wires : List (TWire PolylineCurve)) (tol : ℚ) : Option PolygonMesh :=
  let r := foldAll
    (fun (pl : Polyline) (wire : TWire PolylineCurve) =>
      pl.add_wire surface (wire.map (OEdge.oriented_curve PolylineCurve.inverse)) sp)
    ⟨[], []⟩ wires
  if r.2 then some (trimming_tessellation K surface r.1 tol) else none

/-- The eagerly built vertex map of the parallel driver, keyed by vertex
identity (hash maps are modelled as association lists with first-match
lookup). -/
def par_vmap (shell : TShell C MSurface) : List (ℕ × TVertex) :=
  (shellVertices shell).map (fun v => (v.vid, mapped_vertex v))

/-- The edge built by the parallel driver for one edge occurrence:
`Edge::debug_new` over the vertex-map lookups of the absolute ends and the
polyline approximation of the curve (`unwrap` of the lookups modelled by a
junk default, proved unused under well-formedness). -/
def par_new_edge (ck : CurveKit C) (tol : ℚ) (shell : TShell C MSurface)
    (e : OEdge C) : OEdge PolylineCurve :=
  let v0 := ((par_vmap shell).lookup e.edge.front.vid).getD junk_vertex
  let v1 := ((par_vmap shell).lookup e.edge.back.vid).getD junk_vertex
  let curve := e.edge.curve
  let poly := ck.from_curve curve (ck.parameter_range curve) tol
  ⟨⟨e.edge.eid, v0, v1, poly⟩, true⟩

/-- The eagerly built edge map of the parallel driver (`eset` collected from
all edge occurrences keyed by identity, then mapped to rebuilt edges). -/
def par_edge_map (ck : CurveKit C) (tol : ℚ) (shell : TShell C MSurface) :
    List (ℕ × OEdge PolylineCurve) :=
  ((shellEdges shell).map (fun e => (e.edge.eid, e))).map
    (fun p => (p.1, par_new_edge ck tol shell p.2))

/-- The `create_edge` closure of the parallel driver: look the rebuilt edge
up by identity and orient it per the original flag. -/
def par_create_edge (edge_map : List (ℕ × OEdge PolylineCurve))
    (edge : OEdge C) : OEdge PolylineCurve :=
  let ne := (edge_map.lookup edge.edge.eid).getD junk_edge
  if edge.orientation then ne else ne.inverse

/-- The per-face body of the parallel driver: rebuild the boundaries through
`create_edge`, tessellate, and invert when the original orientation is
false. -/
def par_tessellate_face [Inhabited H] [DecidableEq H] (K : MeshKit T H)
    (sp : MSurface → Pt3 → Option Pt2 → Option Pt2) (tol : ℚ)
    (edge_map : List (ℕ × OEdge PolylineCurve)) (face : TFace C MSurface) :
    TFace PolylineCurve (Option PolygonMesh) :=
  let wires := face.boundaries.map (fun wire => wire.map (par_create_edge edge_map))
  let surface := face.surface
  let polygon := face_polygon K sp surface wires tol
  let new_face : TFace PolylineCurve (Option PolygonMesh) := ⟨wires, true, polygon⟩
  if face.orientation then new_face else new_face.invert

/-- `fn shell_tessellation` (the parallel driver): eagerly build the vertex
map and the edge map keyed by identity, then map every face independently. -/
def shell_tessellation [Inhabited H] [DecidableEq H] (K : MeshKit T H)
    (ck : CurveKit C) (sp : MSurface → Pt3 → Option Pt2 → Option Pt2)
    (shell : TShell C MSurface) (tol : ℚ) :
    TShell PolylineCurve (Option PolygonMesh) :=
  shell.map (par_tessellate_face K sp tol (par_edge_map ck tol shell))

/-- The single-thread driver's state: the lazily populated vertex and edge
entry maps. -/
abbrev StState (C : Type) :=
  List (ℕ × TVertex) × List (ℕ × OEdge PolylineCurve)

/-- `EntryMap::entry_or_insert` for the vertex map: return the stored clone
for this identity or create and store it. -/
def st_entry_vertex (vmap : List (ℕ × TVertex)) (v : TVertex) :
    List (ℕ × TVertex) × TVertex :=
  match vmap.lookup v.vid with
  | some w => (vmap, w)
  | none => (vmap ++ [(v.vid, mapped_vertex v)], mapped_vertex v)

/-- `EntryMap::entry_or_insert` for the edge map: return the stored edge for
this identity or create it (cloning both end vertices through the vertex
entry map) and store it. -/
def st_entry_edge (ck : CurveKit C) (tol : ℚ) (st : StState C)
    (edge : OEdge C) : StState C × OEdge PolylineCurve :=
  match st.2.lookup edge.edge.eid with
  | some ne => (st, ne)
  | none =>
    let r0 := st_entry_vertex st.1 edge.edge.front
    let r1 := st_entry_vertex r0.1 edge.edge.back
    let curve := edge.edge.curve
    let poly := ck.from_curve curve (ck.parameter_range curve) tol
    let ne : OEdge PolylineCurve := ⟨⟨edge.edge.eid, r0.2, r1.2, poly⟩, true⟩
    ((r1.1, st.2 ++ [(edge.edge.eid, ne)]), ne)

/-- The single-thread driver's wire rebuild: map the wire's edges through
the edge entry map in order, orienting per the original flag. -/
def st_wire (ck : CurveKit C) (tol : ℚ) (st : StState C) :
    TWire C → StState C × TWire PolylineCurve
  | [] => (st, [])
  | e :: rest =>
    let r := st_entry_edge ck tol st e
    let e2 := if e.orientation then r.2 else r.2.inverse
    let rr := st_wire ck tol r.1 rest
    (rr.1, e2 :: rr.2)

/-- The single-thread driver's boundary rebuild over all wires of a face. -/
def st_boundaries (ck : CurveKit C) (tol : ℚ) (st : StState C) :
    List (TWire C) → StState C × List (TWire PolylineCurve)
  | [] => (st, [])
  | w :: rest =>
    let r := st_wire ck tol st w
    let rr := st_boundaries ck tol r.1 rest
    (rr.1, r.2 :: rr.2)

/-- The face loop of `fn shell_tessellation_single_thread`, threading the
entry maps. -/
def st_faces [Inhabited H] [DecidableEq H] (K : MeshKit T H)
    (ck : CurveKit C) (sp : MSurface → Pt3 → Option Pt2 → Option Pt2)
    (tol : ℚ) (st : StState C) :
    List (TFace C MSurface) →
      StState C × TShell PolylineCurve (Option PolygonMesh)
  | [] => (st, [])
  | face :: rest =>
    let r := st_boundaries ck tol st face.boundaries
    let polygon := face_polygon K sp face.surface r.2 tol
    let new_face : TFace PolylineCurve (Option PolygonMesh) :=
      ⟨r.2, true, polygon⟩
    let nf := if face.orientation then new_face else new_face.invert
    let rr := st_faces K ck sp tol r.1 rest
    (rr.1, nf :: rr.2)

/-- `fn shell_tessellation_single_thread`: the same pipeline with lazily
populated entry maps, starting from empty maps. -/
def shell_tessellation_single_thread [Inhabited H] [DecidableEq H]
    (K : MeshKit T H) (ck : CurveKit C)
    (sp : MSurface → Pt3 → Option Pt2 → Option Pt2)
    (shell : TShell C MSurface) (tol : ℚ) :
    TShell PolylineCurve (Option PolygonMesh) :=
  (st_faces K ck sp tol (([], []) : StState C) shell).2

/-! ## Compressed shells (`cshell_tessellation`) -/

/-- `CompressedEdge`: vertex indices plus curve payload (truck-topology
compressed representation, modelled from the spec). -/
structure CompressedEdge (C : Type) where
  vertices : ℕ × ℕ
  curve : C
deriving DecidableEq, Repr

/-- An edge reference inside a compressed face boundary: index into the edge
array plus orientation. -/
structure CEdgeIndex where
  index : ℕ
  orientation : Bool
deriving DecidableEq, Repr

/-- `CompressedFace`: boundaries of edge references, orientation, surface. -/
structure CompressedFace (S : Type) where
  boundaries : List (List CEdgeIndex)
  orientation : Bool
  surface : S
deriving DecidableEq, Repr

/-- `CompressedShell`: vertex array, edge array, face array. -/
structure CompressedShell (C S : Type) where
  vertices : List Pt3
  edges : List (CompressedEdge C)
  faces : List (CompressedFace S)
deriving DecidableEq, Repr

/-- The `tessellate_edge` closure of `cshell_tessellation`: keep the vertex
indices and replace the curve by its polyline approximation. -/
def ctessellate_edge (ck : CurveKit C) (tol : ℚ) (edge : CompressedEdge C) :
    CompressedEdge PolylineCurve :=
  { vertices := edge.vertices,
    curve := ck.from_curve edge.curve (ck.parameter_range edge.curve) tol }

/-- The `wire_iter` of `cshell_tessellation`: look each referenced edge
polyline up by index with a guarded `Option` lookup (`edges.get(..)?`), so
an out-of-range reference contributes no polyline, reversing it when the
orientation is false. -/
def cwire_iter (edges : List (CompressedEdge PolylineCurve))
    (wire : List CEdgeIndex) : List PolylineCurve :=
  wire.filterMap (fun edge_idx =>
    match edge_idx.orientation with
    | true => (edges.get? edge_idx.index).map (fun e => e.curve)
    | false => (edges.get? edge_idx.index).map (fun e => e.curve.inverse))

/-- The `tessellate_face` closure of `cshell_tessellation`: assemble the UV
polyline over all boundaries (short-circuiting on failure), tessellate on
success, and keep the boundaries and orientation unchanged. -/
def ctessellate_face [Inhabited H] [DecidableEq H] (K : MeshKit T H)
    (sp : MSurface → Pt3 → Option Pt2 → Option Pt2) (tol : ℚ)
    (edges : List (CompressedEdge PolylineCurve))
    (face : CompressedFace MSurface) : CompressedFace (Option PolygonMesh) :=
  let boundaries := face.boundaries
  let surface := face.surface
  let r := foldAll
    (fun (pl : Polyline) (wire : List CEdgeIndex) =>
      pl.add_wire surface (cwire_iter edges wire) sp)
    ⟨[], []⟩ boundaries
  let polygon :=
    if r.2 then some (trimming_tessellation K surface r.1 tol) else none
  { boundaries := boundaries, orientation := face.orientation,
    surface := polygon }

/-- `fn cshell_tessellation`: tessellate every edge once, then every face. -/
def cshell_tessellation [Inhabited H] [DecidableEq H] (K : MeshKit T H)
    (ck : CurveKit C) (sp : MSurface → Pt3 → Option Pt2 → Option Pt2)
    (shell : CompressedShell C MSurface) (tol : ℚ) :
    CompressedShell PolylineCurve (Option PolygonMesh) :=
  let vertices := shell.vertices
  let edges := shell.edges.map (ctessellate_edge ck tol)
  { vertices := vertices, edges := edges,
    faces := shell.faces.map (ctessellate_face K sp tol edges) }

/-- The shell with out-of-range edge references removed from every face
boundary (used to state that dangling references contribute nothing). -/
def drop_oob_refs (shell : CompressedShell C MSurface) :
    CompressedShell C MSurface :=
  { shell with
    faces := shell.faces.map (fun f =>
      { f with
        boundaries := f.boundaries.map (fun w =>
          w.filter (fun ei => decide (ei.index < shell.edges.length))) }) }

/-! ## Canonical per-face tessellation and well-formedness -/

/-- The edge both drivers produce for an oriented edge reference: the
identity's rebuilt edge, oriented per the reference's flag. -/
def canonical_edge (ck : CurveKit C) (tol : ℚ) (e : OEdge C) :
    OEdge PolylineCurve :=
  if e.orientation then new_edge ck tol e.edge else (new_edge ck tol e.edge).inverse

/-- The rebuilt boundary wires of a face. -/
def rebuilt_wires (ck : CurveKit C) (tol : ℚ) (face : TFace C MSurface) :
    List (TWire PolylineCurve) :=
  face.boundaries.map (fun w => w.map (canonical_edge ck tol))

/-- The face both drivers produce for one input face: rebuilt wires,
tessellated payload, inverted when the input orientation is false. -/
def canonical_face [Inhabited H] [DecidableEq H] (K : MeshKit T H)
    (ck : CurveKit C) (sp : MSurface → Pt3 → Option Pt2 → Option Pt2)
    (tol : ℚ) (face : TFace C MSurface) :
    TFace PolylineCurve (Option PolygonMesh) :=
  let wires := rebuilt_wires ck tol face
  let polygon := face_polygon K sp face.surface wires tol
  let new_face : TFace PolylineCurve (Option PolygonMesh) := ⟨wires, true, polygon⟩
  if face.orientation then new_face else new_face.invert

/-- Well-formedness of a shell: edge identity determines the absolute edge
(shared edges between faces are the same edge). -/
def EidInjective (shell : TShell C MSurface) : Prop :=
  ∀ e1 ∈ shellEdges shell, ∀ e2 ∈ shellEdges shell,
    e1.edge.eid = e2.edge.eid → e1.edge = e2.edge

/-- Well-formedness of a shell: vertex identity determines the vertex. -/
def VidInjective (shell : TShell C MSurface) : Prop :=
  ∀ v1 ∈ shellVertices shell, ∀ v2 ∈ shellVertices shell,
    v1.vid = v2.vid → v1 = v2

instance [DecidableEq C] (shell : TShell C MSurface) :
    Decidable (EidInjective shell) := by
  unfold EidInjective; infer_instance

instance (shell : TShell C MSurface) : Decidable (VidInjective shell) := by
  unfold VidInjective; infer_instance

/-- Invariant of the lazily populated vertex entry map: every stored entry
is the clone of a shell vertex under its identity. -/
def VInv (shell : TShell C MSurface) (vmap : List (ℕ × TVertex)) : Prop :=
  ∀ p ∈ vmap, ∃ v ∈ shellVertices shell, p.1 = v.vid ∧ p.2 = v

/-- Invariant of the lazily populated edge entry map: every stored entry is
the rebuilt edge of a shell edge under its identity. -/
def EInv (shell : TShell C MSurface) (ck : CurveKit C) (tol : ℚ)
    (emap : List (ℕ × OEdge PolylineCurve)) : Prop :=
  ∀ p ∈ emap, ∃ e ∈ shellEdges shell,
    p.1 = e.edge.eid ∧ p.2 = new_edge ck tol e.edge

/-! ## Concrete instances used by witnesses and counterexamples -/

/-- A trivial CDT interface over unit types: every insertion is accepted,
every constraint is legal, and the triangulation reports no vertices. -/
def unitKit : MeshKit Unit Unit where
  empty := ()
  insert := fun _ _ => ((), some ())
  can_add_constraint := fun _ _ _ => true
  add_constraint := fun _ _ _ => ()
  vertices := fun _ => []
  inner_faces := fun _ => []
  ray := fun _ => (1, 0)
  normal_filter := id

/-- A counting CDT interface: the state is the next fresh handle plus the
list of added constraints; every insertion is accepted with a fresh handle;
every constraint is legal. -/
def countKit : MeshKit (ℕ × List (ℕ × ℕ)) ℕ where
  empty := (0, [])
  insert := fun t _ => ((t.1 + 1, t.2), some t.1)
  can_add_constraint := fun _ _ _ => true
  add_constraint := fun t h k => (t.1, t.2 ++ [(h, k)])
  vertices := fun _ => []
  inner_faces := fun _ => []
  ray := fun _ => (1, 0)
  normal_filter := id

/-- Like `countKit`, but the insertion of the origin is rejected (yields no
handle), exercising the compaction of the handle vector. -/
def rejectKit : MeshKit (ℕ × List (ℕ × ℕ)) ℕ where
  empty := (0, [])
  insert := fun t pt =>
    if pt = ((0 : ℚ), (0 : ℚ)) then (t, none) else ((t.1 + 1, t.2), some t.1)
  can_add_constraint := fun _ _ _ => true
  add_constraint := fun t h k => (t.1, t.2 ++ [(h, k)])
  vertices := fun _ => []
  inner_faces := fun _ => []
  ray := fun _ => (1, 0)
  normal_filter := id

/-- A featureless surface with no periods. -/
def flatSurface : MSurface where
  subs := fun _ _ => (0, 0, 0)
  normal := fun _ _ => (0, 0, 1)
  u_period := none
  v_period := none
  parameter_division := fun _ _ => ([], [])
  search_parameter := fun _ _ _ => none
  search_nearest_parameter := fun _ _ _ => none

/-- A surface with both periods equal to 10. -/
def periodicSurface : MSurface :=
  { flatSurface with u_period := some 10, v_period := some 10 }

/-- A surface whose hinted searches fail and whose hint-free searches
succeed. -/
def fallbackSurface : MSurface :=
  { flatSurface with
    search_parameter := fun _ h _ => if h.isSome then none else some (1, 2),
    search_nearest_parameter := fun _ h _ => if h.isSome then none else some (3, 4) }

/-- A surface whose hinted searches succeed. -/
def hintedSurface : MSurface :=
  { flatSurface with
    search_parameter := fun _ _ _ => some (7, 8),
    search_nearest_parameter := fun _ _ _ => some (9, 10) }

/-- A parameter inverter that always fails. -/
def sp_fail : MSurface → Pt3 → Option Pt2 → Option Pt2 := fun _ _ _ => none

/-- A parameter inverter returning the fixed value `(12, 3)`. -/
def sp_fixed : MSurface → Pt3 → Option Pt2 → Option Pt2 :=
  fun _ _ _ => some (12, 3)

/-- A parameter inverter projecting the 3D point to its first two
coordinates. -/
def sp_proj : MSurface → Pt3 → Option Pt2 → Option Pt2 :=
  fun _ p _ => some (p.1, p.2.1)

/-- The constant ray direction `(1, 0)`. -/
def rayE : Pt2 → Pt2 := fun _ => (1, 0)

/-- The boundary of the axis-aligned square with corners `(0,0)` and
`(2,2)`. -/
def squarePolyline : Polyline :=
  ⟨[(0, 0), (2, 0), (2, 2), (0, 2)], [(0, 1), (1, 2), (2, 3), (3, 0)]⟩

/-- Three positions (the first of which `rejectKit` rejects) with a single
segment between indices 0 and 1. -/
def cexPolyline : Polyline := ⟨[(0, 0), (1, 1), (2, 2)], [(0, 1)]⟩

/-- A wire of one three-point edge polyline, whose projection fails under
`sp_fail`. -/
def cexWire : List PolylineCurve := [⟨[(0, 0, 0), (0, 0, 0), (0, 0, 0)]⟩]

/-- A wire of one three-point edge polyline, projectable under `sp_proj`. -/
def okWire : List PolylineCurve := [⟨[(0, 0, 0), (1, 0, 0), (2, 0, 0)]⟩]

/-- A trivial curve kit over the unit curve type. -/
def unitCurveKit : CurveKit Unit where
  parameter_range := fun _ => (0, 1)
  from_curve := fun _ _ _ => ⟨[(0, 0, 0), (1, 0, 0)]⟩
  inverse := fun c => c

/-- Witness vertices, edges and shell: two faces sharing both edges, the
second with reversed orientations. -/
def wVertex1 : TVertex := ⟨1, (0, 0, 0)⟩

/-- Second witness vertex. -/
def wVertex2 : TVertex := ⟨2, (1, 0, 0)⟩

/-- First witness edge. -/
def wEdge1 : TEdge Unit := ⟨10, wVertex1, wVertex2, ()⟩

/-- Second witness edge. -/
def wEdge2 : TEdge Unit := ⟨11, wVertex2, wVertex1, ()⟩

/-- Witness shell: two faces sharing both edges by identity. -/
def wShell : TShell Unit MSurface :=
  [⟨[[⟨wEdge1, true⟩, ⟨wEdge2, true⟩]], true, flatSurface⟩,
   ⟨[[⟨wEdge2, false⟩, ⟨wEdge1, false⟩]], false, flatSurface⟩]

end Truck

/-- C1: for every 2D parametric curve and surface, the `PCurve` composite
evaluates by the chain rule: `subs t = S (C t)`,
`der t = Sᵤ(C t)·Cₓ'(t) + Sᵥ(C t)·Cᵧ'(t)`, and
`der2 t = Sᵤᵤ·Cₓ'² + 2·Sᵤᵥ·Cₓ'Cᵧ' + Sᵥᵥ·Cᵧ'² + Sᵤ·Cₓ'' + Sᵥ·Cᵧ''`,
with all surface partials evaluated at `C t`. -/
theorem C1_pcurve_chain_rule (pc : Truck.PCurve) (t : ℚ) :
    pc.subs t = pc.surface.subs (pc.curve.subs t).1 (pc.curve.subs t).2 ∧
    pc.der t =
      (pc.curve.der t).1 • pc.surface.uder (pc.curve.subs t).1 (pc.curve.subs t).2
        + (pc.curve.der t).2 • pc.surface.vder (pc.curve.subs t).1 (pc.curve.subs t).2 ∧
    pc.der2 t =
      (pc.curve.der t).1 ^ 2 • pc.surface.uuder (pc.curve.subs t).1 (pc.curve.subs t).2
        + (2 * ((pc.curve.der t).1 * (pc.curve.der t).2)) •
            pc.surface.uvder (pc.curve.subs t).1 (pc.curve.subs t).2
        + (pc.curve.der t).2 ^ 2 • pc.surface.vvder (pc.curve.subs t).1 (pc.curve.subs t).2
        + (pc.curve.der2 t).1 • pc.surface.uder (pc.curve.subs t).1 (pc.curve.subs t).2
        + (pc.curve.der2 t).2 • pc.surface.vder (pc.curve.subs t).1 (pc.curve.subs t).2 := by
  refine ⟨rfl, rfl, ?_⟩
  show ((pc.curve.der t).1 * (pc.curve.der t).1) •
        pc.surface.uuder (pc.curve.subs t).1 (pc.curve.subs t).2
      + ((pc.curve.der t).1 * (pc.curve.der t).2 * 2) •
        pc.surface.uvder (pc.curve.subs t).1 (pc.curve.subs t).2
      + ((pc.curve.der t).2 * (pc.curve.der t).2) •
        pc.surface.vvder (pc.curve.subs t).1 (pc.curve.subs t).2
      + (pc.curve.der2 t).1 • pc.surface.uder (pc.curve.subs t).1 (pc.curve.subs t).2
      + (pc.curve.der2 t).2 • pc.surface.vder (pc.curve.subs t).1 (pc.curve.subs t).2 = _
  rw [pow_two, pow_two, show (pc.curve.der t).1 * (pc.curve.der t).2 * 2 =
    2 * ((pc.curve.der t).1 * (pc.curve.der t).2) from by ring]

open Truck in
/-- Helper: a fold accumulating componentwise min/max of `g` over a list
computes the four independent folds. -/
theorem foldl_minmax {α : Type} (g : α → Truck.Pt2) :
    ∀ (l : List α) (u0 u1 v0 v1 : ℚ),
      l.foldl
        (fun acc p =>
          ((min acc.1.1 (g p).1, max acc.1.2 (g p).1),
           (min acc.2.1 (g p).2, max acc.2.2 (g p).2)))
        ((u0, u1), (v0, v1))
      = ((l.foldl (fun m p => min m (g p).1) u0,
          l.foldl (fun m p => max m (g p).1) u1),
         (l.foldl (fun m p => min m (g p).2) v0,
          l.foldl (fun m p => max m (g p).2) v1))
  | [], _, _, _, _ => rfl
  | p :: l, u0, u1, v0, v1 => by
    simpa using foldl_minmax g l (min u0 (g p).1) (max u1 (g p).1)
      (min v0 (g p).2) (max v1 (g p).2)

open Truck in
/-- C6: `PCurve::search_parameter` is two-stage: it inverts the point on the
surface and then inverts the resulting UV on the 2D curve, passing the same
trials budget to both stages, and returns `none` if either stage fails; a
range hint `(a, b)` is converted to a 2D axis-aligned box hint by sampling
the curve at `PRESEARCH_DIVISION + 1` parameters of `[a, b]` and taking
componentwise min/max of the sampled UV points. -/
theorem C6_pcurve_search_parameter_two_stage (pc : Truck.PCurve) (point : Truck.Pt3)
    (trials : ℕ) (a b : ℚ) :
    (∀ hint, pc.search_parameter point hint trials =
      (pc.surface.search_parameter point (pc.to_shint hint) trials).bind
        (fun q => pc.curve.search_parameter q hint trials)) ∧
    (presearch_params a b).length = PRESEARCH_DIVISION + 1 ∧
    pc.to_shint (SPHint1D.Range a b) =
      SPHint2D.Range
        (headMin ((presearch_params a b).map (fun t => (pc.curve.subs t).1)),
         headMax ((presearch_params a b).map (fun t => (pc.curve.subs t).1)))
        (headMin ((presearch_params a b).map (fun t => (pc.curve.subs t).2)),
         headMax ((presearch_params a b).map (fun t => (pc.curve.subs t).2))) := by
  refine ⟨?_, ?_, ?_⟩
  · intro hint
    cases h : pc.surface.search_parameter point (pc.to_shint hint) trials with
    | none => simp [Truck.PCurve.search_parameter, h]
    | some q =>
      cases q with
      | mk x y => simp [Truck.PCurve.search_parameter, h]
  · simp [presearch_params]
  · show pc.range_to_shint a b = _
    simp only [Truck.PCurve.range_to_shint]
    rw [foldl_minmax
      (fun i : ℕ => pc.curve.subs (a + (b - a) * (i : ℚ) / (PRESEARCH_DIVISION : ℚ)))]
    simp [presearch_params, headMin, headMax, List.map_map, List.foldl_map,
      Function.comp]

open Truck in
/-- C9: `by_search_parameter` returns the hinted 100-trial search result when
it is `some`; when the hinted search returns `none` it retries with hint
`none`, so it returns `none` only if both searches fail; and
`by_search_nearest_parameter` behaves analogously. -/
theorem C9_by_search_parameter_fallback (s : Truck.MSurface) (point : Truck.Pt3)
    (hint : Option Truck.Pt2) :
    (∀ r, s.search_parameter point hint 100 = some r →
      by_search_parameter s point hint = some r) ∧
    (s.search_parameter point hint 100 = none →
      by_search_parameter s point hint = s.search_parameter point none 100) ∧
    (by_search_parameter s point hint = none ↔
      s.search_parameter point hint 100 = none ∧
      s.search_parameter point none 100 = none) ∧
    (∀ r, s.search_nearest_parameter point hint 100 = some r →
      by_search_nearest_parameter s point hint = some r) ∧
    (s.search_nearest_parameter point hint 100 = none →
      by_search_nearest_parameter s point hint =
        s.search_nearest_parameter point none 100) ∧
    (by_search_nearest_parameter s point hint = none ↔
      s.search_nearest_parameter point hint 100 = none ∧
      s.search_nearest_parameter point none 100 = none) := by
  unfold Truck.by_search_parameter Truck.by_search_nearest_parameter
  cases h1 : s.search_parameter point hint 100 <;>
    cases h2 : s.search_nearest_parameter point hint 100 <;>
      simp [Option.orElse]

open Truck in
/-- Helper: one step of the `include` fold either aborts on the on-edge case
or adds the segment's winding contribution. -/
theorem include_step_eq (ray : Truck.Pt2 → Truck.Pt2) (pl : Truck.Polyline)
    (c : Truck.Pt2) (acc : ℤ) (e : ℕ × ℕ) :
    include_step ray pl c acc e =
      if include_on_edge ray pl c e then none
      else some (acc + include_contrib ray pl c e) := by
  simp only [Truck.include_step, Truck.include_contrib, Truck.include_on_edge]
  by_cases hb : so_small (include_vals ray pl c e).2.2 = true ∧
      (include_vals ray pl c e).1 * (include_vals ray pl c e).2.1 < 0
  · rw [if_pos hb, if_pos hb]
  · rw [if_neg hb, if_neg hb]
    split_ifs <;> simp [sub_eq_add_neg]

open Truck in
/-- Helper: when no segment is on-edge, the `include` fold completes and
accumulates the winding contributions. -/
theorem foldlM_include_some (ray : Truck.Pt2 → Truck.Pt2) (pl : Truck.Polyline)
    (c : Truck.Pt2) :
    ∀ l : List (ℕ × ℕ), (∀ e ∈ l, ¬ include_on_edge ray pl c e) →
      ∀ acc : ℤ, l.foldlM (include_step ray pl c) acc =
        some (acc + (l.map (include_contrib ray pl c)).sum) := by
  intro l
  induction l with
  | nil => intro _ acc; simp
  | cons e t ih =>
    intro h acc
    have hne : ¬ include_on_edge ray pl c e := h e (List.mem_cons_self e t)
    rw [List.foldlM_cons, include_step_eq, if_neg hne]
    show (t.foldlM (include_step ray pl c) (acc + include_contrib ray pl c e)) = _
    rw [ih (fun x hx => h x (List.mem_cons_of_mem e hx))]
    simp [add_assoc]

open Truck in
/-- Helper: when some segment is on-edge, the `include` fold aborts. -/
theorem foldlM_include_none (ray : Truck.Pt2 → Truck.Pt2) (pl : Truck.Polyline)
    (c : Truck.Pt2) :
    ∀ l : List (ℕ × ℕ), (∃ e ∈ l, include_on_edge ray pl c e) →
      ∀ acc : ℤ, l.foldlM (include_step ray pl c) acc = none := by
  intro l
  induction l with
  | nil => rintro ⟨e, he, _⟩; simp at he
  | cons e t ih =>
    rintro ⟨f, hf, hon⟩ acc
    rw [List.foldlM_cons]
    by_cases he : include_on_edge ray pl c e
    · rw [include_step_eq, if_pos he]; rfl
    · rw [include_step_eq, if_neg he]
      show (t.foldlM (include_step ray pl c) (acc + include_contrib ray pl c e)) = _
      rcases List.mem_cons.mp hf with h1 | h2
      · exact absurd (h1 ▸ hon) he
      · exact ih ⟨f, h2, hon⟩ _

open Truck in
/-- C4: `Polyline::include` casts a hashed-direction ray and, per segment,
computes `s0 = r×a`, `s1 = r×b`, `s2 = a×b`, `x = s2/(s1-s0)`; if `|x|` is
within tolerance and `s0·s1 < 0` it returns false immediately; otherwise it
increments the counter when `x > 0 ∧ s0 ≤ 0 ∧ s1 > 0` and decrements when
`x > 0 ∧ s0 ≥ 0 ∧ s1 < 0`; the final result is true iff the counter is
positive.  The ray direction `(cos 2π·hash c, sin 2π·hash c)` is modelled by
the abstract direction function `ray`. -/
theorem C4_include_winding (ray : Truck.Pt2 → Truck.Pt2) (pl : Truck.Polyline)
    (c : Truck.Pt2) :
    ((∃ e ∈ pl.indices, include_on_edge ray pl c e) →
      pl.include ray c = false) ∧
    ((∀ e ∈ pl.indices, ¬ include_on_edge ray pl c e) →
      pl.include ray c =
        decide (0 < (pl.indices.map (include_contrib ray pl c)).sum)) := by
  constructor
  · intro hex
    unfold Truck.Polyline.include
    rw [foldlM_include_none ray pl c pl.indices hex 0]
  · intro hall
    unfold Truck.Polyline.include
    rw [foldlM_include_some ray pl c pl.indices hall 0]
    simp

open Truck in
/-- Witness for C4: the centre of the square is found inside, through the
winding characterization, with no segment on-edge. -/
theorem C4_include_winding_witness :
    (∀ e ∈ squarePolyline.indices,
      ¬ include_on_edge rayE squarePolyline (1, 1) e) ∧
    squarePolyline.include rayE (1, 1) = true := by
  have h1 : ∀ e ∈ squarePolyline.indices,
      ¬ include_on_edge rayE squarePolyline (1, 1) e := by
    intro e he
    fin_cases he <;>
      norm_num [Truck.include_on_edge, Truck.include_vals, Truck.squarePolyline,
        Truck.rayE, Truck.so_small, Truck.TOLERANCE]
  refine ⟨h1, ?_⟩
  rw [(C4_include_winding rayE squarePolyline (1, 1)).2 h1]
  norm_num [Truck.include_contrib, Truck.include_vals, Truck.squarePolyline,
    Truck.rayE]

open Truck in
/-- Helper: the source's `unreachable!()` pattern `(true, true, true)` in the
periodic unwrapping match is impossible. -/
theorem adjust_period_unreachable (x prev P : ℚ) :
    ¬ (|x - prev| < |x - P - prev| ∧ |x - P - prev| < |x + P - prev| ∧
       |x + P - prev| < |x - prev|) := by
  rintro ⟨a, b, c⟩; linarith

open Truck in
/-- Helper: `adjust_period` picks one of the three candidates and its
distance to the previous value is minimal among them. -/
theorem adjust_period_min (x prev P : ℚ) :
    (adjust_period x prev P = x ∨ adjust_period x prev P = x - P ∨
      adjust_period x prev P = x + P) ∧
    |adjust_period x prev P - prev| ≤ |x - prev| ∧
    |adjust_period x prev P - prev| ≤ |x - P - prev| ∧
    |adjust_period x prev P - prev| ≤ |x + P - prev| := by
  unfold Truck.adjust_period
  by_cases h01 : |x - prev| < |x - P - prev| <;>
    by_cases h12 : |x - P - prev| < |x + P - prev| <;>
      by_cases h20 : |x + P - prev| < |x - prev| <;>
        simp only [h01, h12, h20, decide_true_eq_true, decide_false_eq_false,
          decide_eq_true_eq, decide_eq_false_iff_not, if_true, if_false]
  all_goals exact ⟨by tauto, by linarith, by linarith, by linarith⟩

open Truck in
/-- C5: in `add_wire`, for a point whose inversion succeeds on a surface with
`u`-period `up`, when a previous UV value exists the stored `u`-coordinate is
the element of `u`, `u - up`, `u + up` minimizing the absolute distance to
the previous `u`; the same holds independently for `v` with period `vp`. -/
theorem C5_periodic_unwrapping (S : Truck.MSurface)
    (sp : Truck.MSurface → Truck.Pt3 → Option Truck.Pt2 → Option Truck.Pt2)
    (pos : List Truck.Pt2) (prev : Truck.Pt2) (hint : Option Truck.Pt2)
    (pt : Truck.Pt3) (u v up vp : ℚ)
    (hsp : sp S pt hint = some (u, v))
    (hu : S.u_period = some up) (hv : S.v_period = some vp) :
    add_point S sp (⟨pos, some prev⟩, hint) pt =
      ((⟨pos ++ [(adjust_period u prev.1 up, adjust_period v prev.2 vp)],
         some (adjust_period u prev.1 up, adjust_period v prev.2 vp)⟩,
        some (adjust_period u prev.1 up, adjust_period v prev.2 vp)), true) ∧
    ((adjust_period u prev.1 up = u ∨ adjust_period u prev.1 up = u - up ∨
        adjust_period u prev.1 up = u + up) ∧
      |adjust_period u prev.1 up - prev.1| ≤ |u - prev.1| ∧
      |adjust_period u prev.1 up - prev.1| ≤ |u - up - prev.1| ∧
      |adjust_period u prev.1 up - prev.1| ≤ |u + up - prev.1|) ∧
    ((adjust_period v prev.2 vp = v ∨ adjust_period v prev.2 vp = v - vp ∨
        adjust_period v prev.2 vp = v + vp) ∧
      |adjust_period v prev.2 vp - prev.2| ≤ |v - prev.2| ∧
      |adjust_period v prev.2 vp - prev.2| ≤ |v - vp - prev.2| ∧
      |adjust_period v prev.2 vp - prev.2| ≤ |v + vp - prev.2|) := by
  refine ⟨?_, adjust_period_min u prev.1 up, adjust_period_min v prev.2 vp⟩
  unfold Truck.add_point
  rw [hsp]
  simp [hu, hv]

open Truck in
/-- Witness for C5: a concrete unwrapping on the 10-periodic surface, with
`sp` returning `(12, 3)` and previous value `(1, 1)`: the stored point is
`(2, 3)`. -/
theorem C5_periodic_unwrapping_witness :
    sp_fixed periodicSurface (0, 0, 0) none = some (12, 3) ∧
    periodicSurface.u_period = some 10 ∧
    periodicSurface.v_period = some 10 ∧
    add_point periodicSurface sp_fixed (⟨[], some (1, 1)⟩, none) (0, 0, 0) =
      ((⟨[((2 : ℚ), (3 : ℚ))], some (2, 3)⟩, some (2, 3)), true) := by
  refine ⟨rfl, rfl, rfl, ?_⟩
  have h := (C5_periodic_unwrapping periodicSurface sp_fixed [] (1, 1) none
    (0, 0, 0) 12 3 10 10 rfl rfl rfl).1
  have e1 : Truck.adjust_period 12 1 10 = 2 := by
    have h1 : ¬(|(12 : ℚ) - 1| < |12 - 10 - 1|) := by norm_num [abs_of_nonneg]
    have h2 : |(12 : ℚ) - 10 - 1| < |12 + 10 - 1| := by norm_num [abs_of_nonneg]
    unfold Truck.adjust_period
    simp only [decide_eq_false h1, decide_eq_true h2]
    norm_num
  have e2 : Truck.adjust_period 3 1 10 = 3 := by
    have h1 : |(3 : ℚ) - 1| < |3 - 10 - 1| := by
      norm_num [abs_of_nonneg, abs_of_nonpos]
    have h2 : |(3 : ℚ) - 10 - 1| < |3 + 10 - 1| := by
      norm_num [abs_of_nonneg, abs_of_nonpos]
    have h3 : ¬(|(3 : ℚ) + 10 - 1| < |3 - 1|) := by
      norm_num [abs_of_nonneg, abs_of_nonpos]
    unfold Truck.adjust_period
    simp only [decide_eq_true h1, decide_eq_true h2, decide_eq_false h3]
  rw [h]
  norm_num [e1, e2]

open Truck in
/-- Helper: one step of the short-circuiting fold. -/
theorem foldAll_cons {σ α : Type} (f : σ → α → σ × Bool) (s : σ) (a : α)
    (l : List α) :
    Truck.foldAll f s (a :: l) =
      if (f s a).2 = true then Truck.foldAll f (f s a).1 l
      else ((f s a).1, false) := by
  cases h : f s a with
  | mk s1 b => cases b <;> simp [Truck.foldAll, h]

open Truck in
/-- Helper: a successful `add_point` pushes exactly one position. -/
theorem add_point_true_len (S : Truck.MSurface)
    (sp : Truck.MSurface → Truck.Pt3 → Option Truck.Pt2 → Option Truck.Pt2)
    (st : Truck.WireState × Option Truck.Pt2) (pt : Truck.Pt3) :
    (Truck.add_point S sp st pt).2 = true →
    (Truck.add_point S sp st pt).1.1.positions.length
      = st.1.positions.length + 1 := by
  unfold Truck.add_point
  cases hsp : sp S pt st.2 with
  | none => simp
  | some q => simp

open Truck in
/-- Helper: a fully successful point fold pushes one position per point. -/
theorem foldAll_points_len (S : Truck.MSurface)
    (sp : Truck.MSurface → Truck.Pt3 → Option Truck.Pt2 → Option Truck.Pt2) :
    ∀ (pts : List Truck.Pt3) (st : Truck.WireState × Option Truck.Pt2),
      (Truck.foldAll (Truck.add_point S sp) st pts).2 = true →
      (Truck.foldAll (Truck.add_point S sp) st pts).1.1.positions.length
        = st.1.positions.length + pts.length := by
  intro pts
  induction pts with
  | nil => intro st _; simp [Truck.foldAll]
  | cons p rest ih =>
    intro st htrue
    rw [foldAll_cons] at htrue ⊢
    by_cases hb : (Truck.add_point S sp st p).2 = true
    · rw [if_pos hb] at htrue ⊢
      rw [ih _ htrue, add_point_true_len S sp st p hb]
      simp [List.length_cons]
      omega
    · rw [if_neg hb] at htrue
      simp at htrue

open Truck in
/-- Helper: `add_edge` always adds the popped length to the counter. -/
theorem add_edge_counter (S : Truck.MSurface)
    (sp : Truck.MSurface → Truck.Pt3 → Option Truck.Pt2 → Option Truck.Pt2)
    (st : Truck.WireState × ℕ) (e : Truck.PolylineCurve) :
    (Truck.add_edge S sp st e).1.2 = st.2 + e.pop.points.length := rfl

open Truck in
/-- Helper: a successful `add_edge` pushes exactly the popped length of
positions. -/
theorem add_edge_true_len (S : Truck.MSurface)
    (sp : Truck.MSurface → Truck.Pt3 → Option Truck.Pt2 → Option Truck.Pt2)
    (st : Truck.WireState × ℕ) (e : Truck.PolylineCurve) :
    (Truck.add_edge S sp st e).2 = true →
    (Truck.add_edge S sp st e).1.1.positions.length
      = st.1.positions.length + e.pop.points.length := by
  intro h
  exact foldAll_points_len S sp e.pop.points (st.1, none) h

open Truck in
/-- Helper: a fully successful edge fold grows positions and counter by the
sum of the popped lengths. -/
theorem foldAll_edges_len (S : Truck.MSurface)
    (sp : Truck.MSurface → Truck.Pt3 → Option Truck.Pt2 → Option Truck.Pt2) :
    ∀ (wire : List Truck.PolylineCurve) (st : Truck.WireState × ℕ),
      (Truck.foldAll (Truck.add_edge S sp) st wire).2 = true →
      (Truck.foldAll (Truck.add_edge S sp) st wire).1.1.positions.length
          = st.1.positions.length
            + (wire.map (fun e => e.pop.points.length)).sum ∧
      (Truck.foldAll (Truck.add_edge S sp) st wire).1.2
          = st.2 + (wire.map (fun e => e.pop.points.length)).sum := by
  intro wire
  induction wire with
  | nil => intro st _; simp [Truck.foldAll]
  | cons e rest ih =>
    intro st htrue
    rw [foldAll_cons] at htrue ⊢
    by_cases hb : (Truck.add_edge S sp st e).2 = true
    · rw [if_pos hb] at htrue ⊢
      obtain ⟨hl, hc⟩ := ih _ htrue
      rw [hl, hc, add_edge_true_len S sp st e hb, add_edge_counter]
      simp [List.length_cons]
      omega
    · rw [if_neg hb] at htrue
      simp at htrue

open Truck in
/-- C8 (amended): after every call to `Polyline::add_wire` that returns
true, every index pair references existing positions; the positions grow by
the wire's point count `n` (the sum of the popped edge lengths) and the
indices added for the wire form the closed loop `(len+i, len+(i+1) mod n)`.
When the call returns false the loop indices are still appended but may
reference positions that were never pushed (see the counterexample). -/
theorem C8_add_wire_invariant (S : Truck.MSurface)
    (sp : Truck.MSurface → Truck.Pt3 → Option Truck.Pt2 → Option Truck.Pt2)
    (wire : List Truck.PolylineCurve) (pl : Truck.Polyline)
    (hval : ∀ q ∈ pl.indices,
      q.1 < pl.positions.length ∧ q.2 < pl.positions.length)
    (hres : (pl.add_wire S wire sp).2 = true) :
    (pl.add_wire S wire sp).1.positions.length
        = pl.positions.length + (wire.map (fun e => e.pop.points.length)).sum ∧
    (pl.add_wire S wire sp).1.indices
        = pl.indices ++
          (List.range ((wire.map (fun e => e.pop.points.length)).sum)).map
            (fun i => (pl.positions.length + i,
              pl.positions.length +
                (i + 1) % (wire.map (fun e => e.pop.points.length)).sum)) ∧
    (∀ q ∈ (pl.add_wire S wire sp).1.indices,
        q.1 < (pl.add_wire S wire sp).1.positions.length ∧
        q.2 < (pl.add_wire S wire sp).1.positions.length) := by
  have hres2 : (Truck.foldAll (Truck.add_edge S sp)
      ((⟨pl.positions, none⟩ : Truck.WireState), 0) wire).2 = true := hres
  obtain ⟨hlen, hctr⟩ := foldAll_edges_len S sp wire
    ((⟨pl.positions, none⟩ : Truck.WireState), 0) hres2
  have hA : (pl.add_wire S wire sp).1.positions.length
      = pl.positions.length + (wire.map (fun e => e.pop.points.length)).sum := hlen
  have hB : (pl.add_wire S wire sp).1.indices
      = pl.indices ++
        (List.range ((Truck.foldAll (Truck.add_edge S sp)
            ((⟨pl.positions, none⟩ : Truck.WireState), 0) wire).1.2)).map
          (fun i => (pl.positions.length + i,
            pl.positions.length + (i + 1) %
              (Truck.foldAll (Truck.add_edge S sp)
                ((⟨pl.positions, none⟩ : Truck.WireState), 0) wire).1.2)) := rfl
  rw [hctr, Nat.zero_add] at hB
  refine ⟨hA, hB, ?_⟩
  intro q hq
  rw [hB] at hq
  rcases List.mem_append.mp hq with hold | hnew
  · have := hval q hold
    constructor <;> [skip; skip] <;> rw [hA] <;> omega
  · obtain ⟨i, hi, hqe⟩ := List.mem_map.mp hnew
    have hilt : i < (wire.map (fun e => e.pop.points.length)).sum :=
      List.mem_range.mp hi
    have hmod : (i + 1) % (wire.map (fun e => e.pop.points.length)).sum
        < (wire.map (fun e => e.pop.points.length)).sum :=
      Nat.mod_lt _ (Nat.pos_of_ne_zero (fun h0 => by omega))
    rw [← hqe, hA]
    constructor <;> simp <;> omega

open Truck in
/-- Counterexample to C8 as stated: a call whose first inversion fails
returns false, yet the appended loop indices reference positions that were
never pushed (the counter already counted the failed edge's points), so not
every index pair references an existing position. -/
theorem C8_add_wire_counterexample :
    (((⟨[], []⟩ : Truck.Polyline).add_wire flatSurface cexWire sp_fail).2
        = false) ∧
    ¬ (∀ q ∈ ((⟨[], []⟩ : Truck.Polyline).add_wire flatSurface cexWire
          sp_fail).1.indices,
        q.1 < ((⟨[], []⟩ : Truck.Polyline).add_wire flatSurface cexWire
          sp_fail).1.positions.length ∧
        q.2 < ((⟨[], []⟩ : Truck.Polyline).add_wire flatSurface cexWire
          sp_fail).1.positions.length) := by decide

open Truck in
/-- Witness for C8: a successful call on a three-point wire satisfies the
invariant. -/
theorem C8_add_wire_invariant_witness :
    ((⟨[], []⟩ : Truck.Polyline).add_wire flatSurface okWire sp_proj).2
        = true ∧
    (∀ q ∈ ((⟨[], []⟩ : Truck.Polyline).add_wire flatSurface okWire
        sp_proj).1.indices,
      q.1 < ((⟨[], []⟩ : Truck.Polyline).add_wire flatSurface okWire
        sp_proj).1.positions.length ∧
      q.2 < ((⟨[], []⟩ : Truck.Polyline).add_wire flatSurface okWire
        sp_proj).1.positions.length) := by
  have h := C8_add_wire_invariant flatSurface sp_proj okWire ⟨[], []⟩
    (by intro q hq; simp at hq) (by decide)
  exact ⟨by decide, h.2.2⟩

open Truck in
/-- Helper: the compacted handle vector is the reduction of the per-index
insertion outcomes. -/
theorem build_handles_eq_reduce {T H : Type} (K : Truck.MeshKit T H) :
    ∀ (ps : List Truck.Pt2) (t : T),
      (Truck.build_handles K t ps).2 = (insert_results K t ps).reduceOption := by
  intro ps
  induction ps with
  | nil => intro t; rfl
  | cons p rest ih =>
    intro t
    simp only [Truck.build_handles, Truck.insert_results]
    cases hr : K.insert t p with
    | mk t1 oh =>
      cases oh with
      | some hd => simp [ih]
      | none => simp [ih]

open Truck in
/-- Helper: the per-index insertion outcome list has one entry per
position. -/
theorem insert_results_length {T H : Type} (K : Truck.MeshKit T H) :
    ∀ (ps : List Truck.Pt2) (t : T),
      (insert_results K t ps).length = ps.length := by
  intro ps
  induction ps with
  | nil => intro t; rfl
  | cons p rest ih => intro t; simp [Truck.insert_results, ih]

/-- Helper: reducing a list of options that are all `some` keeps the length
and the per-index entries. -/
theorem reduceOption_all_some {H : Type} :
    ∀ l : List (Option H), (∀ x ∈ l, x.isSome) →
      l.reduceOption.length = l.length ∧
      ∀ i, l.reduceOption.get? i = (l.get? i).bind id := by
  intro l
  induction l with
  | nil => intro _; exact ⟨rfl, by intro i; cases i <;> rfl⟩
  | cons a rest ih =>
    intro h
    have ha : a.isSome := h a (List.mem_cons_self a rest)
    obtain ⟨b, hb⟩ := Option.isSome_iff_exists.mp ha
    subst hb
    obtain ⟨ih1, ih2⟩ := ih (fun x hx => h x (List.mem_cons_of_mem _ hx))
    refine ⟨by simp [ih1], ?_⟩
    intro i
    cases i with
    | zero => simp
    | succ n => simpa using ih2 n

open Truck in
/-- C7 (amended): `insert_to` remembers the handles of accepted points in a
single compacted vector; when every insertion is accepted this vector is
indexed by polyline index (entry `i` is the handle the CDT returned for
`positions[i]`), and the constraint walk is exactly the claim's pending
walk over these handles: a segment's constraint is added when legal,
otherwise its start becomes pending, and with a pending vertex the
pending-to-current-end constraint is attempted, pending being cleared only
on success.  When some insertion is rejected the vector is compacted and
later segments address shifted entries (see the counterexample). -/
theorem C7_insert_to_pending_walk {T H : Type} [Inhabited H]
    (K : Truck.MeshKit T H) (t : T) (pl : Truck.Polyline)
    (hacc : ∀ h ∈ insert_results K t pl.positions, h.isSome) :
    (Truck.build_handles K t pl.positions).2.length = pl.positions.length ∧
    (∀ i, (Truck.build_handles K t pl.positions).2.get? i
        = ((insert_results K t pl.positions).get? i).bind id) ∧
    pl.insert_to K t =
      pending_walk_spec K (Truck.build_handles K t pl.positions).2
        (Truck.build_handles K t pl.positions).1 pl.indices := by
  obtain ⟨h1, h2⟩ := reduceOption_all_some (insert_results K t pl.positions) hacc
  refine ⟨?_, ?_, rfl⟩
  · rw [build_handles_eq_reduce, h1, insert_results_length]
  · intro i
    rw [build_handles_eq_reduce]
    exact h2 i

open Truck in
/-- Counterexample to C7 as stated: with a CDT that rejects the first
position, the walk adds the constraint `(0, 1)` — the handles of the second
and third positions — although no segment's endpoints have remembered
per-index handles `0` and `1` (the segment `(0, 1)`'s start has no handle
and its end's handle is `0`). -/
theorem C7_insert_to_counterexample :
    cexPolyline.insert_to rejectKit rejectKit.empty = (2, [(0, 1)]) ∧
    insert_results rejectKit rejectKit.empty cexPolyline.positions
      = [none, some 0, some 1] ∧
    (∀ q ∈ cexPolyline.indices,
      ¬ (((insert_results rejectKit rejectKit.empty
            cexPolyline.positions).get? q.1).bind id = some 0 ∧
         ((insert_results rejectKit rejectKit.empty
            cexPolyline.positions).get? q.2).bind id = some 1)) := by decide

open Truck in
/-- Witness for C7: with an all-accepting CDT, the handle vector is indexed
by polyline index. -/
theorem C7_insert_to_pending_walk_witness :
    (∀ h ∈ insert_results countKit countKit.empty squarePolyline.positions,
      h.isSome) ∧
    (Truck.build_handles countKit countKit.empty
      squarePolyline.positions).2.length = 4 := by
  have h := C7_insert_to_pending_walk countKit countKit.empty squarePolyline
    (by decide)
  exact ⟨by decide, by rw [h.1]; rfl⟩

open Truck in
/-- Helper: folding over a mapped list folds the composition. -/
theorem foldAll_map {σ α β : Type} (g : σ → β → σ × Bool) (m : α → β) :
    ∀ (l : List α) (st : σ),
      Truck.foldAll g st (l.map m) = Truck.foldAll (fun s a => g s (m a)) st l := by
  intro l
  induction l with
  | nil => intro st; rfl
  | cons a rest ih =>
    intro st
    rw [List.map_cons, foldAll_cons, foldAll_cons]
    by_cases hb : (g st (m a)).2 = true
    · rw [if_pos hb, if_pos hb, ih]
    · rw [if_neg hb, if_neg hb]

open Truck in
/-- Helper: entries a filter drops contribute nothing to a `filterMap` that
sends them to `none`. -/
theorem filterMap_filter {α β : Type} (p : α → Bool) (f : α → Option β)
    (hf : ∀ a, p a = false → f a = none) :
    ∀ l : List α, l.filterMap f = (l.filter p).filterMap f := by
  intro l
  induction l with
  | nil => rfl
  | cons a rest ih =>
    cases hp : p a with
    | true =>
      cases hfa : f a <;>
        simp [List.filterMap_cons, List.filter_cons, hfa, hp, ih]
    | false =>
      have h0 := hf a hp
      simp [List.filterMap_cons, List.filter_cons, h0, hp, ih]

open Truck in
/-- Helper: `foldAll` only depends on the pointwise behaviour of its step
function. -/
theorem foldAll_congr {σ α : Type} (f g : σ → α → σ × Bool)
    (h : ∀ s a, f s a = g s a) (st : σ) (l : List α) :
    Truck.foldAll f st l = Truck.foldAll g st l := by
  have hfg : f = g := funext fun s => funext fun a => h s a
  rw [hfg]

open Truck in
/-- C10: `cshell_tessellation` never panics on out-of-range edge references:
the reference contributes no polyline (guarded `Option` lookup), the face is
still tessellated from the remaining edges (payloads agree with the shell
whose out-of-range references were removed), and the dangling references are
retained unchanged in the output boundaries. -/
theorem C10_cshell_oob_refs {T H C : Type} [Inhabited H] [DecidableEq H]
    (K : Truck.MeshKit T H) (ck : Truck.CurveKit C)
    (sp : Truck.MSurface → Truck.Pt3 → Option Truck.Pt2 → Option Truck.Pt2)
    (shell : Truck.CompressedShell C Truck.MSurface) (tol : ℚ) :
    ((Truck.cshell_tessellation K ck sp shell tol).faces.map
        (fun f => f.boundaries)
      = shell.faces.map (fun f => f.boundaries)) ∧
    ((Truck.cshell_tessellation K ck sp shell tol).faces.map
        (fun f => f.orientation)
      = shell.faces.map (fun f => f.orientation)) ∧
    (Truck.cshell_tessellation K ck sp shell tol).vertices
      = (Truck.cshell_tessellation K ck sp (drop_oob_refs shell) tol).vertices ∧
    (Truck.cshell_tessellation K ck sp shell tol).edges
      = (Truck.cshell_tessellation K ck sp (drop_oob_refs shell) tol).edges ∧
    ((Truck.cshell_tessellation K ck sp shell tol).faces.map
        (fun f => f.surface)
      = (Truck.cshell_tessellation K ck sp (drop_oob_refs shell) tol).faces.map
        (fun f => f.surface)) := by
  refine ⟨?_, ?_, rfl, rfl, ?_⟩
  · simp only [Truck.cshell_tessellation, List.map_map]
    rfl
  · simp only [Truck.cshell_tessellation, List.map_map]
    rfl
  · simp only [Truck.cshell_tessellation, Truck.drop_oob_refs, List.map_map]
    apply List.map_congr_left
    intro face hface
    have key : ∀ w : List Truck.CEdgeIndex,
        Truck.cwire_iter (shell.edges.map (Truck.ctessellate_edge ck tol))
            (w.filter (fun ei => decide (ei.index < shell.edges.length)))
          = Truck.cwire_iter (shell.edges.map (Truck.ctessellate_edge ck tol)) w := by
      intro w
      unfold Truck.cwire_iter
      refine (filterMap_filter _ _ ?_ w).symm
      intro ei hp
      have hge : shell.edges.length ≤ ei.index := by
        have := of_decide_eq_false hp
        omega
      have hnone : (shell.edges.map (Truck.ctessellate_edge ck tol)).get? ei.index
          = none := by
        rw [List.get?_eq_none]
        rw [List.length_map]
        exact hge
      cases ho : ei.orientation <;> simp [ho, hnone] <;> exact hge
    show (Truck.ctessellate_face K sp tol
        (shell.edges.map (Truck.ctessellate_edge ck tol)) face).surface = _
    unfold Truck.ctessellate_face
    have keyfold :
        Truck.foldAll
          (fun (pl : Truck.Polyline) (wire : List Truck.CEdgeIndex) =>
            pl.add_wire face.surface
              (Truck.cwire_iter (shell.edges.map (Truck.ctessellate_edge ck tol))
                wire) sp)
          ⟨[], []⟩
          (face.boundaries.map
            (fun w => w.filter (fun ei => decide (ei.index < shell.edges.length))))
        = Truck.foldAll
          (fun (pl : Truck.Polyline) (wire : List Truck.CEdgeIndex) =>
            pl.add_wire face.surface
              (Truck.cwire_iter (shell.edges.map (Truck.ctessellate_edge ck tol))
                wire) sp)
          ⟨[], []⟩ face.boundaries := by
      rw [foldAll_map]
      apply foldAll_congr
      intro s w
      rw [key w]
    simp only [Function.comp]
    rw [keyfold]

/-- Helper: looking a key up in a graph-shaped association list finds the
value of the first element with that key. -/
theorem lookup_map_graph {α β : Type} (key : α → ℕ) (val : α → β) :
    ∀ (l : List α) (k : ℕ),
      (l.map (fun a => (key a, val a))).lookup k
        = (l.find? (fun a => key a == k)).map val := by
  intro l
  induction l with
  | nil => intro k; rfl
  | cons a rest ih =>
    intro k
    by_cases h : key a = k
    · have h1 : (k == key a) = true := by simp [h]
      have h2 : (key a == k) = true := by simp [h]
      simp [List.lookup, List.find?, h1, h2]
    · have h1 : (k == key a) = false := by simp [Ne.symm h]
      have h2 : (key a == k) = false := by simp [h]
      simp [List.lookup, List.find?, h1, h2, ih]

open Truck in
/-- Helper: an edge of a wire of a face of a shell is a shell edge. -/
theorem mem_shellEdges {C S : Type} {shell : Truck.TShell C S}
    {face : Truck.TFace C S} {w : Truck.TWire C} {e : Truck.OEdge C}
    (hf : face ∈ shell) (hw : w ∈ face.boundaries) (he : e ∈ w) :
    e ∈ shellEdges shell := by
  unfold Truck.shellEdges
  exact List.mem_flatMap.mpr ⟨face, hf, List.mem_flatMap.mpr ⟨w, hw, he⟩⟩

open Truck in
/-- Helper: the front vertex of a shell edge is a shell vertex. -/
theorem mem_shellVertices_front {C S : Type} {shell : Truck.TShell C S}
    {e : Truck.OEdge C} (he : e ∈ shellEdges shell) :
    e.edge.front ∈ shellVertices shell := by
  unfold Truck.shellVertices
  exact List.mem_flatMap.mpr ⟨e, he, by simp⟩

open Truck in
/-- Helper: the back vertex of a shell edge is a shell vertex. -/
theorem mem_shellVertices_back {C S : Type} {shell : Truck.TShell C S}
    {e : Truck.OEdge C} (he : e ∈ shellEdges shell) :
    e.edge.back ∈ shellVertices shell := by
  unfold Truck.shellVertices
  exact List.mem_flatMap.mpr ⟨e, he, by simp⟩

open Truck in
/-- Helper: the identity-preserving clone is the vertex itself. -/
theorem mapped_vertex_eq (v : Truck.TVertex) : mapped_vertex v = v := rfl

open Truck in
/-- Helper: under vertex-identity injectivity, the vertex map lookup of a
shell vertex returns that vertex. -/
theorem par_vmap_lookup {C : Type} {shell : Truck.TShell C Truck.MSurface}
    (h2 : VidInjective shell) (v : Truck.TVertex)
    (hv : v ∈ shellVertices shell) :
    (par_vmap shell).lookup v.vid = some v := by
  unfold Truck.par_vmap
  rw [lookup_map_graph (fun a => a.vid) mapped_vertex]
  cases hf : (shellVertices shell).find? (fun a => a.vid == v.vid) with
  | none =>
    rw [List.find?_eq_none] at hf
    have hcontra := hf v hv
    simp at hcontra
  | some v1 =>
    have hm := List.mem_of_find?_eq_some hf
    have hp := List.find?_some hf
    have : v1.vid = v.vid := by simpa using hp
    rw [h2 v1 hm v hv this]
    simp [mapped_vertex_eq]

open Truck in
/-- Helper: under vertex-identity injectivity, the parallel driver's rebuilt
edge for a shell edge occurrence is the canonical rebuilt edge of its
absolute edge. -/
theorem par_new_edge_eq {C : Type} {shell : Truck.TShell C Truck.MSurface}
    (ck : Truck.CurveKit C) (tol : ℚ) (h2 : VidInjective shell)
    (e : Truck.OEdge C) (he : e ∈ shellEdges shell) :
    par_new_edge ck tol shell e = new_edge ck tol e.edge := by
  unfold Truck.par_new_edge Truck.new_edge
  rw [par_vmap_lookup h2 e.edge.front (mem_shellVertices_front he),
    par_vmap_lookup h2 e.edge.back (mem_shellVertices_back he)]
  rfl

open Truck in
/-- Helper: the parallel edge map in graph shape. -/
theorem par_edge_map_eq {C : Type} (ck : Truck.CurveKit C) (tol : ℚ)
    (shell : Truck.TShell C Truck.MSurface) :
    par_edge_map ck tol shell
      = (shellEdges shell).map
          (fun e => (e.edge.eid, par_new_edge ck tol shell e)) := by
  unfold Truck.par_edge_map
  rw [List.map_map]
  rfl

open Truck in
/-- Helper: under well-formedness, the edge-map lookup of a shell edge's
identity returns the canonical rebuilt edge. -/
theorem par_edge_map_lookup {C : Type} {shell : Truck.TShell C Truck.MSurface}
    (ck : Truck.CurveKit C) (tol : ℚ) (h1 : EidInjective shell)
    (h2 : VidInjective shell) (e : Truck.OEdge C) (he : e ∈ shellEdges shell) :
    (par_edge_map ck tol shell).lookup e.edge.eid
      = some (new_edge ck tol e.edge) := by
  rw [par_edge_map_eq,
    lookup_map_graph (fun a => a.edge.eid) (par_new_edge ck tol shell)]
  cases hf : (shellEdges shell).find? (fun a => a.edge.eid == e.edge.eid) with
  | none =>
    rw [List.find?_eq_none] at hf
    have hcontra := hf e he
    simp at hcontra
  | some e1 =>
    have hm := List.mem_of_find?_eq_some hf
    have hp := List.find?_some hf
    have heq : e1.edge = e.edge := by
      apply h1 e1 hm e he
      simpa using hp
    show some (par_new_edge ck tol shell e1) = some (new_edge ck tol e.edge)
    rw [par_new_edge_eq ck tol h2 e1 hm, heq]

open Truck in
/-- Helper: under well-formedness, the parallel `create_edge` is the
canonical oriented rebuilt edge. -/
theorem par_create_edge_canonical {C : Type}
    {shell : Truck.TShell C Truck.MSurface} (ck : Truck.CurveKit C) (tol : ℚ)
    (h1 : EidInjective shell) (h2 : VidInjective shell) (e : Truck.OEdge C)
    (he : e ∈ shellEdges shell) :
    par_create_edge (par_edge_map ck tol shell) e = canonical_edge ck tol e := by
  unfold Truck.par_create_edge Truck.canonical_edge
  rw [par_edge_map_lookup ck tol h1 h2 e he]
  rfl

open Truck in
/-- Helper: under well-formedness, the parallel driver maps every face to
its canonical tessellation. -/
theorem shell_tessellation_canonical {T H C : Type} [Inhabited H]
    [DecidableEq H] (K : Truck.MeshKit T H) (ck : Truck.CurveKit C)
    (sp : Truck.MSurface → Truck.Pt3 → Option Truck.Pt2 → Option Truck.Pt2)
    (shell : Truck.TShell C Truck.MSurface) (tol : ℚ)
    (h1 : EidInjective shell) (h2 : VidInjective shell) :
    Truck.shell_tessellation K ck sp shell tol
      = shell.map (canonical_face K ck sp tol) := by
  unfold Truck.shell_tessellation
  apply List.map_congr_left
  intro face hf
  unfold Truck.par_tessellate_face Truck.canonical_face
  have hwires : face.boundaries.map
      (fun wire => wire.map (Truck.par_create_edge (par_edge_map ck tol shell)))
      = rebuilt_wires ck tol face := by
    unfold Truck.rebuilt_wires
    apply List.map_congr_left
    intro w hw
    apply List.map_congr_left
    intro e heW
    exact par_create_edge_canonical ck tol h1 h2 e (mem_shellEdges hf hw heW)
  rw [hwires]

/-- Helper: a successful association-list lookup locates a stored entry. -/
theorem mem_of_lookup_eq_some {β : Type} :
    ∀ (l : List (ℕ × β)) (k : ℕ) (b : β),
      l.lookup k = some b → (k, b) ∈ l := by
  intro l
  induction l with
  | nil => intro k b h; simp [List.lookup] at h
  | cons p rest ih =>
    intro k b h
    obtain ⟨k1, b1⟩ := p
    cases hbeq : (k == k1) with
    | true =>
      simp only [List.lookup, hbeq] at h
      have hk : k = k1 := by simpa using hbeq
      have hb : b1 = b := by simpa using h
      subst hk
      subst hb
      exact List.mem_cons_self _ _
    | false =>
      simp only [List.lookup, hbeq] at h
      exact List.mem_cons_of_mem _ (ih k b h)

open Truck in
/-- Helper: the vertex entry map returns the vertex itself for shell
vertices and preserves its invariant. -/
theorem st_entry_vertex_spec {C : Type} {shell : Truck.TShell C Truck.MSurface}
    (h2 : VidInjective shell) (vmap : List (ℕ × Truck.TVertex))
    (hinv : VInv shell vmap) (v : Truck.TVertex)
    (hv : v ∈ shellVertices shell) :
    (Truck.st_entry_vertex vmap v).2 = v ∧
    VInv shell (Truck.st_entry_vertex vmap v).1 := by
  unfold Truck.st_entry_vertex
  cases hl : vmap.lookup v.vid with
  | some w =>
    obtain ⟨v1, hv1, hk, hw⟩ := hinv (v.vid, w) (mem_of_lookup_eq_some vmap v.vid w hl)
    simp only at hk hw
    have hveq : v1 = v := h2 v1 hv1 v hv hk.symm
    constructor
    · show w = v
      rw [hw, hveq]
    · exact hinv
  | none =>
    constructor
    · rfl
    · intro p hp
      rcases List.mem_append.mp hp with hold | hnew
      · exact hinv p hold
      · refine ⟨v, hv, ?_, ?_⟩ <;> simp_all [mapped_vertex_eq]

open Truck in
/-- Helper: the edge entry map returns the canonical rebuilt edge for shell
edges and preserves both invariants. -/
theorem st_entry_edge_spec {C : Type} {shell : Truck.TShell C Truck.MSurface}
    (h1 : EidInjective shell) (h2 : VidInjective shell) (ck : Truck.CurveKit C)
    (tol : ℚ) (st : Truck.StState C) (hV : VInv shell st.1)
    (hE : EInv shell ck tol st.2) (e : Truck.OEdge C)
    (he : e ∈ shellEdges shell) :
    (Truck.st_entry_edge ck tol st e).2 = new_edge ck tol e.edge ∧
    VInv shell (Truck.st_entry_edge ck tol st e).1.1 ∧
    EInv shell ck tol (Truck.st_entry_edge ck tol st e).1.2 := by
  unfold Truck.st_entry_edge
  cases hl : st.2.lookup e.edge.eid with
  | some ne =>
    obtain ⟨e1, he1, hk, hne⟩ :=
      hE (e.edge.eid, ne) (mem_of_lookup_eq_some st.2 e.edge.eid ne hl)
    have heq : e1.edge = e.edge := h1 e1 he1 e he (by simpa using hk.symm)
    simp only at hk hne
    refine ⟨?_, hV, hE⟩
    show ne = new_edge ck tol e.edge
    rw [hne, heq]
  | none =>
    obtain ⟨hv0, hV1⟩ :=
      st_entry_vertex_spec h2 st.1 hV e.edge.front (mem_shellVertices_front he)
    obtain ⟨hv1, hV2⟩ :=
      st_entry_vertex_spec h2 (Truck.st_entry_vertex st.1 e.edge.front).1 hV1
        e.edge.back (mem_shellVertices_back he)
    refine ⟨?_, hV2, ?_⟩
    · show (⟨⟨e.edge.eid, (Truck.st_entry_vertex st.1 e.edge.front).2,
          (Truck.st_entry_vertex (Truck.st_entry_vertex st.1 e.edge.front).1
            e.edge.back).2,
          ck.from_curve e.edge.curve (ck.parameter_range e.edge.curve) tol⟩,
          true⟩ : Truck.OEdge Truck.PolylineCurve)
        = new_edge ck tol e.edge
      rw [hv0, hv1]
      rfl
    · intro p hp
      rcases List.mem_append.mp hp with hold | hnew
      · exact hE p hold
      · have hp2 : p = (e.edge.eid,
            (⟨⟨e.edge.eid, (Truck.st_entry_vertex st.1 e.edge.front).2,
              (Truck.st_entry_vertex (Truck.st_entry_vertex st.1 e.edge.front).1
                e.edge.back).2,
              ck.from_curve e.edge.curve (ck.parameter_range e.edge.curve) tol⟩,
              true⟩ : Truck.OEdge Truck.PolylineCurve)) := by
          simpa using hnew
        refine ⟨e, he, ?_, ?_⟩
        · rw [hp2]
        · rw [hp2, hv0, hv1]
          rfl

open Truck in
/-- Helper: the single-thread wire rebuild produces the canonical wire and
preserves the entry-map invariants. -/
theorem st_wire_spec {C : Type} {shell : Truck.TShell C Truck.MSurface}
    (h1 : EidInjective shell) (h2 : VidInjective shell) (ck : Truck.CurveKit C)
    (tol : ℚ) :
    ∀ (wire : Truck.TWire C) (st : Truck.StState C),
      (∀ e ∈ wire, e ∈ shellEdges shell) → VInv shell st.1 →
      EInv shell ck tol st.2 →
      (Truck.st_wire ck tol st wire).2 = wire.map (canonical_edge ck tol) ∧
      VInv shell (Truck.st_wire ck tol st wire).1.1 ∧
      EInv shell ck tol (Truck.st_wire ck tol st wire).1.2 := by
  intro wire
  induction wire with
  | nil => intro st _ hV hE; exact ⟨rfl, hV, hE⟩
  | cons e rest ih =>
    intro st hmem hV hE
    obtain ⟨hval, hV1, hE1⟩ := st_entry_edge_spec h1 h2 ck tol st hV hE e
      (hmem e (List.mem_cons_self e rest))
    obtain ⟨ihval, ihV, ihE⟩ := ih (Truck.st_entry_edge ck tol st e).1
      (fun x hx => hmem x (List.mem_cons_of_mem e hx)) hV1 hE1
    refine ⟨?_, ihV, ihE⟩
    show (if e.orientation then (Truck.st_entry_edge ck tol st e).2
        else (Truck.st_entry_edge ck tol st e).2.inverse)
        :: (Truck.st_wire ck tol (Truck.st_entry_edge ck tol st e).1 rest).2
      = (canonical_edge ck tol e) :: rest.map (canonical_edge ck tol)
    rw [hval, ihval]
    rfl

open Truck in
/-- Helper: the single-thread boundary rebuild produces the canonical wires
and preserves the entry-map invariants. -/
theorem st_boundaries_spec {C : Type} {shell : Truck.TShell C Truck.MSurface}
    (h1 : EidInjective shell) (h2 : VidInjective shell) (ck : Truck.CurveKit C)
    (tol : ℚ) :
    ∀ (bs : List (Truck.TWire C)) (st : Truck.StState C),
      (∀ w ∈ bs, ∀ e ∈ w, e ∈ shellEdges shell) → VInv shell st.1 →
      EInv shell ck tol st.2 →
      (Truck.st_boundaries ck tol st bs).2
          = bs.map (fun w => w.map (canonical_edge ck tol)) ∧
      VInv shell (Truck.st_boundaries ck tol st bs).1.1 ∧
      EInv shell ck tol (Truck.st_boundaries ck tol st bs).1.2 := by
  intro bs
  induction bs with
  | nil => intro st _ hV hE; exact ⟨rfl, hV, hE⟩
  | cons w rest ih =>
    intro st hmem hV hE
    obtain ⟨hw, hV1, hE1⟩ := st_wire_spec h1 h2 ck tol w st
      (hmem w (List.mem_cons_self w rest)) hV hE
    obtain ⟨ihval, ihV, ihE⟩ := ih (Truck.st_wire ck tol st w).1
      (fun x hx => hmem x (List.mem_cons_of_mem w hx)) hV1 hE1
    refine ⟨?_, ihV, ihE⟩
    show (Truck.st_wire ck tol st w).2
        :: (Truck.st_boundaries ck tol (Truck.st_wire ck tol st w).1 rest).2
      = (w.map (canonical_edge ck tol))
        :: rest.map (fun w => w.map (canonical_edge ck tol))
    rw [hw, ihval]

open Truck in
/-- Helper: the single-thread face loop produces the canonical faces and
preserves the entry-map invariants. -/
theorem st_faces_spec {T H C : Type} [Inhabited H] [DecidableEq H]
    {shell : Truck.TShell C Truck.MSurface} (K : Truck.MeshKit T H)
    (h1 : EidInjective shell) (h2 : VidInjective shell) (ck : Truck.CurveKit C)
    (sp : Truck.MSurface → Truck.Pt3 → Option Truck.Pt2 → Option Truck.Pt2)
    (tol : ℚ) :
    ∀ (faces : List (Truck.TFace C Truck.MSurface)) (st : Truck.StState C),
      (∀ f ∈ faces, ∀ w ∈ f.boundaries, ∀ e ∈ w, e ∈ shellEdges shell) →
      VInv shell st.1 → EInv shell ck tol st.2 →
      (Truck.st_faces K ck sp tol st faces).2
          = faces.map (canonical_face K ck sp tol) := by
  intro faces
  induction faces with
  | nil => intro st _ hV hE; rfl
  | cons face rest ih =>
    intro st hmem hV hE
    obtain ⟨hb, hV1, hE1⟩ := st_boundaries_spec h1 h2 ck tol face.boundaries st
      (hmem face (List.mem_cons_self face rest)) hV hE
    have ihval := ih (Truck.st_boundaries ck tol st face.boundaries).1
      (fun x hx => hmem x (List.mem_cons_of_mem face hx)) hV1 hE1
    show (let r := Truck.st_boundaries ck tol st face.boundaries
      let polygon := Truck.face_polygon K sp face.surface r.2 tol
      let new_face : Truck.TFace Truck.PolylineCurve (Option Truck.PolygonMesh) :=
        ⟨r.2, true, polygon⟩
      let nf := if face.orientation then new_face else new_face.invert
      let rr := Truck.st_faces K ck sp tol r.1 rest
      (rr.1, nf :: rr.2)).2
      = canonical_face K ck sp tol face
        :: rest.map (canonical_face K ck sp tol)
    simp only []
    rw [hb, ihval]
    unfold Truck.canonical_face Truck.rebuilt_wires
    rfl

open Truck in
/-- Helper: under well-formedness, the single-thread driver also maps every
face to its canonical tessellation. -/
theorem shell_tessellation_single_thread_canonical {T H C : Type} [Inhabited H]
    [DecidableEq H] (K : Truck.MeshKit T H) (ck : Truck.CurveKit C)
    (sp : Truck.MSurface → Truck.Pt3 → Option Truck.Pt2 → Option Truck.Pt2)
    (shell : Truck.TShell C Truck.MSurface) (tol : ℚ)
    (h1 : EidInjective shell) (h2 : VidInjective shell) :
    Truck.shell_tessellation_single_thread K ck sp shell tol
      = shell.map (canonical_face K ck sp tol) := by
  unfold Truck.shell_tessellation_single_thread
  exact st_faces_spec K h1 h2 ck sp tol shell ([], [])
    (fun f hf w hw e he => mem_shellEdges hf hw he)
    (fun p hp => absurd hp (List.not_mem_nil p))
    (fun p hp => absurd hp (List.not_mem_nil p))

open Truck in
/-- C2: for every shell, tolerance and pure parameter inverter, on a
well-formed shell (edge and vertex identities determine the entities, as
`truck-topology` guarantees), `shell_tessellation` and
`shell_tessellation_single_thread` produce equal meshed shells — in
particular equal up to reordering of triangles within each face, with equal
vertex positions, uv coordinates and normals, and identical per-face
topology. -/
theorem C2_parallel_eq_single_thread {T H C : Type} [Inhabited H]
    [DecidableEq H] (K : Truck.MeshKit T H) (ck : Truck.CurveKit C)
    (sp : Truck.MSurface → Truck.Pt3 → Option Truck.Pt2 → Option Truck.Pt2)
    (shell : Truck.TShell C Truck.MSurface) (tol : ℚ)
    (h1 : EidInjective shell) (h2 : VidInjective shell) :
    Truck.shell_tessellation K ck sp shell tol
      = Truck.shell_tessellation_single_thread K ck sp shell tol := by
  rw [shell_tessellation_canonical K ck sp shell tol h1 h2,
    shell_tessellation_single_thread_canonical K ck sp shell tol h1 h2]

open Truck in
/-- Witness for C2: both drivers agree on a concrete two-face shell sharing
both edges by identity. -/
theorem C2_parallel_eq_single_thread_witness :
    EidInjective wShell ∧ VidInjective wShell ∧
    Truck.shell_tessellation unitKit unitCurveKit sp_proj wShell 1
      = Truck.shell_tessellation_single_thread unitKit unitCurveKit sp_proj
          wShell 1 := by
  refine ⟨?_, ?_, ?_⟩
  · decide
  · decide
  · exact C2_parallel_eq_single_thread unitKit unitCurveKit sp_proj wShell 1
      (by decide) (by decide)

open Truck in
/-- Helper: `add_point` reads the positions vector only to push; its result
bool, previous value and hint do not depend on it. -/
theorem add_point_indep (S : Truck.MSurface)
    (sp : Truck.MSurface → Truck.Pt3 → Option Truck.Pt2 → Option Truck.Pt2)
    (pos1 pos2 : List Truck.Pt2) (prev hint : Option Truck.Pt2)
    (pt : Truck.Pt3) :
    (Truck.add_point S sp (⟨pos1, prev⟩, hint) pt).1.1.previous
        = (Truck.add_point S sp (⟨pos2, prev⟩, hint) pt).1.1.previous ∧
    (Truck.add_point S sp (⟨pos1, prev⟩, hint) pt).1.2
        = (Truck.add_point S sp (⟨pos2, prev⟩, hint) pt).1.2 ∧
    (Truck.add_point S sp (⟨pos1, prev⟩, hint) pt).2
        = (Truck.add_point S sp (⟨pos2, prev⟩, hint) pt).2 := by
  unfold Truck.add_point
  cases hsp : sp S pt hint <;> simp

open Truck in
/-- Helper: the point fold's bool, previous value and hint do not depend on
the accumulated positions. -/
theorem foldAll_points_indep (S : Truck.MSurface)
    (sp : Truck.MSurface → Truck.Pt3 → Option Truck.Pt2 → Option Truck.Pt2) :
    ∀ (pts : List Truck.Pt3) (pos1 pos2 : List Truck.Pt2)
      (prev hint : Option Truck.Pt2),
      (Truck.foldAll (Truck.add_point S sp) (⟨pos1, prev⟩, hint) pts).1.1.previous
          = (Truck.foldAll (Truck.add_point S sp) (⟨pos2, prev⟩, hint) pts).1.1.previous ∧
      (Truck.foldAll (Truck.add_point S sp) (⟨pos1, prev⟩, hint) pts).1.2
          = (Truck.foldAll (Truck.add_point S sp) (⟨pos2, prev⟩, hint) pts).1.2 ∧
      (Truck.foldAll (Truck.add_point S sp) (⟨pos1, prev⟩, hint) pts).2
          = (Truck.foldAll (Truck.add_point S sp) (⟨pos2, prev⟩, hint) pts).2 := by
  intro pts
  induction pts with
  | nil => intro pos1 pos2 prev hint; exact ⟨rfl, rfl, rfl⟩
  | cons p rest ih =>
    intro pos1 pos2 prev hint
    obtain ⟨hprev, hhint, hbool⟩ := add_point_indep S sp pos1 pos2 prev hint p
    rw [foldAll_cons, foldAll_cons]
    by_cases hb : (Truck.add_point S sp (⟨pos1, prev⟩, hint) p).2 = true
    · rw [if_pos hb, if_pos (hbool ▸ hb)]
      have h2s : (Truck.add_point S sp (⟨pos2, prev⟩, hint) p).1
          = (⟨(Truck.add_point S sp (⟨pos2, prev⟩, hint) p).1.1.positions,
              (Truck.add_point S sp (⟨pos1, prev⟩, hint) p).1.1.previous⟩,
             (Truck.add_point S sp (⟨pos1, prev⟩, hint) p).1.2) := by
        rw [hprev, hhint]
      rw [h2s]
      exact ih (Truck.add_point S sp (⟨pos1, prev⟩, hint) p).1.1.positions
        (Truck.add_point S sp (⟨pos2, prev⟩, hint) p).1.1.positions
        (Truck.add_point S sp (⟨pos1, prev⟩, hint) p).1.1.previous
        (Truck.add_point S sp (⟨pos1, prev⟩, hint) p).1.2
    · rw [if_neg hb, if_neg (fun hc => hb (hbool ▸ hc))]
      exact ⟨hprev, hhint, rfl⟩

open Truck in
/-- Helper: `add_edge`'s bool, previous value and counter do not depend on
the accumulated positions. -/
theorem add_edge_indep (S : Truck.MSurface)
    (sp : Truck.MSurface → Truck.Pt3 → Option Truck.Pt2 → Option Truck.Pt2)
    (pos1 pos2 : List Truck.Pt2) (prev : Option Truck.Pt2) (c : ℕ)
    (e : Truck.PolylineCurve) :
    (Truck.add_edge S sp (⟨pos1, prev⟩, c) e).1.1.previous
        = (Truck.add_edge S sp (⟨pos2, prev⟩, c) e).1.1.previous ∧
    (Truck.add_edge S sp (⟨pos1, prev⟩, c) e).1.2
        = (Truck.add_edge S sp (⟨pos2, prev⟩, c) e).1.2 ∧
    (Truck.add_edge S sp (⟨pos1, prev⟩, c) e).2
        = (Truck.add_edge S sp (⟨pos2, prev⟩, c) e).2 := by
  obtain ⟨hprev, hhint, hbool⟩ :=
    foldAll_points_indep S sp e.pop.points pos1 pos2 prev none
  exact ⟨hprev, rfl, hbool⟩

open Truck in
/-- Helper: the edge fold's bool, previous value and counter do not depend
on the accumulated positions. -/
theorem foldAll_edges_indep (S : Truck.MSurface)
    (sp : Truck.MSurface → Truck.Pt3 → Option Truck.Pt2 → Option Truck.Pt2) :
    ∀ (wire : List Truck.PolylineCurve) (pos1 pos2 : List Truck.Pt2)
      (prev : Option Truck.Pt2) (c : ℕ),
      (Truck.foldAll (Truck.add_edge S sp) (⟨pos1, prev⟩, c) wire).1.1.previous
          = (Truck.foldAll (Truck.add_edge S sp) (⟨pos2, prev⟩, c) wire).1.1.previous ∧
      (Truck.foldAll (Truck.add_edge S sp) (⟨pos1, prev⟩, c) wire).1.2
          = (Truck.foldAll (Truck.add_edge S sp) (⟨pos2, prev⟩, c) wire).1.2 ∧
      (Truck.foldAll (Truck.add_edge S sp) (⟨pos1, prev⟩, c) wire).2
          = (Truck.foldAll (Truck.add_edge S sp) (⟨pos2, prev⟩, c) wire).2 := by
  intro wire
  induction wire with
  | nil => intro pos1 pos2 prev c; exact ⟨rfl, rfl, rfl⟩
  | cons e rest ih =>
    intro pos1 pos2 prev c
    obtain ⟨hprev, hctr, hbool⟩ := add_edge_indep S sp pos1 pos2 prev c e
    rw [foldAll_cons, foldAll_cons]
    by_cases hb : (Truck.add_edge S sp (⟨pos1, prev⟩, c) e).2 = true
    · rw [if_pos hb, if_pos (hbool ▸ hb)]
      have h2s : (Truck.add_edge S sp (⟨pos2, prev⟩, c) e).1
          = (⟨(Truck.add_edge S sp (⟨pos2, prev⟩, c) e).1.1.positions,
              (Truck.add_edge S sp (⟨pos1, prev⟩, c) e).1.1.previous⟩,
             (Truck.add_edge S sp (⟨pos1, prev⟩, c) e).1.2) := by
        rw [hprev, hctr]
      rw [h2s]
      exact ih (Truck.add_edge S sp (⟨pos1, prev⟩, c) e).1.1.positions
        (Truck.add_edge S sp (⟨pos2, prev⟩, c) e).1.1.positions
        (Truck.add_edge S sp (⟨pos1, prev⟩, c) e).1.1.previous
        (Truck.add_edge S sp (⟨pos1, prev⟩, c) e).1.2
    · rw [if_neg hb, if_neg (fun hc => hb (hbool ▸ hc))]
      exact ⟨hprev, hctr, rfl⟩

open Truck in
/-- Helper: whether `add_wire` succeeds does not depend on the polyline it
extends. -/
theorem add_wire_snd_indep (S : Truck.MSurface)
    (sp : Truck.MSurface → Truck.Pt3 → Option Truck.Pt2 → Option Truck.Pt2)
    (wire : List Truck.PolylineCurve) (pl : Truck.Polyline) :
    (pl.add_wire S wire sp).2
      = ((⟨[], []⟩ : Truck.Polyline).add_wire S wire sp).2 :=
  (foldAll_edges_indep S sp wire pl.positions [] none 0).2.2

open Truck in
/-- Helper: the stateful short-circuiting `all` over the face's wires
succeeds iff each wire's (state-independent) `add_wire` succeeds. -/
theorem foldAll_wires_all_iff (S : Truck.MSurface)
    (sp : Truck.MSurface → Truck.Pt3 → Option Truck.Pt2 → Option Truck.Pt2)
    (conv : Truck.TWire Truck.PolylineCurve → List Truck.PolylineCurve) :
    ∀ (wires : List (Truck.TWire Truck.PolylineCurve)) (pl : Truck.Polyline),
      (Truck.foldAll
          (fun (pl : Truck.Polyline) (w : Truck.TWire Truck.PolylineCurve) =>
            pl.add_wire S (conv w) sp) pl wires).2 = true ↔
        ∀ w ∈ wires, ((⟨[], []⟩ : Truck.Polyline).add_wire S (conv w) sp).2 = true := by
  intro wires
  induction wires with
  | nil => intro pl; simp [Truck.foldAll]
  | cons w rest ih =>
    intro pl
    rw [foldAll_cons]
    by_cases hb : (pl.add_wire S (conv w) sp).2 = true
    · rw [if_pos hb, ih]
      constructor
      · intro hall x hx
        rcases List.mem_cons.mp hx with hxe | hxr
        · rw [hxe, ← add_wire_snd_indep S sp (conv w) pl]
          exact hb
        · exact hall x hxr
      · intro hall x hx
        exact hall x (List.mem_cons_of_mem w hx)
    · rw [if_neg hb]
      constructor
      · intro hfalse
        exact absurd hfalse (by simp)
      · intro hall
        have hwt := hall w (List.mem_cons_self w rest)
        rw [← add_wire_snd_indep S sp (conv w) pl] at hwt
        exact absurd hwt hb

open Truck in
/-- Helper: the per-face payload is empty iff some boundary wire's
projection fails. -/
theorem face_polygon_none_iff {T H : Type} [Inhabited H] [DecidableEq H]
    (K : Truck.MeshKit T H)
    (sp : Truck.MSurface → Truck.Pt3 → Option Truck.Pt2 → Option Truck.Pt2)
    (surface : Truck.MSurface)
    (wires : List (Truck.TWire Truck.PolylineCurve)) (tol : ℚ) :
    Truck.face_polygon K sp surface wires tol = none ↔
      ∃ w ∈ wires, ((⟨[], []⟩ : Truck.Polyline).add_wire surface
        (w.map (Truck.OEdge.oriented_curve Truck.PolylineCurve.inverse))
        sp).2 = false := by
  unfold Truck.face_polygon
  by_cases hr : (Truck.foldAll
      (fun (pl : Truck.Polyline) (w : Truck.TWire Truck.PolylineCurve) =>
        pl.add_wire surface
          (w.map (Truck.OEdge.oriented_curve Truck.PolylineCurve.inverse)) sp)
      ⟨[], []⟩ wires).2 = true
  · rw [if_pos hr]
    have hall := (foldAll_wires_all_iff surface sp
      (fun w => w.map (Truck.OEdge.oriented_curve Truck.PolylineCurve.inverse))
      wires ⟨[], []⟩).mp hr
    constructor
    · intro hcontra
      simp at hcontra
    · rintro ⟨w, hw, hfalse⟩
      rw [hall w hw] at hfalse
      simp at hfalse
  · rw [if_neg hr]
    have hnall : ¬ ∀ w ∈ wires, ((⟨[], []⟩ : Truck.Polyline).add_wire surface
        (w.map (Truck.OEdge.oriented_curve Truck.PolylineCurve.inverse))
        sp).2 = true :=
      fun hall => hr ((foldAll_wires_all_iff surface sp
        (fun w => w.map (Truck.OEdge.oriented_curve Truck.PolylineCurve.inverse))
        wires ⟨[], []⟩).mpr hall)
    push_neg at hnall
    obtain ⟨w, hw, hne⟩ := hnall
    simp only [Bool.not_eq_true] at hne
    constructor
    · intro _
      exact ⟨w, hw, hne⟩
    · intro _
      rfl

open Truck in
/-- C3: on a well-formed shell, `shell_tessellation` returns exactly one
face per input face in input order; each output face keeps its rebuilt
boundary wires and its orientation; the mesh payload is `none` iff
`add_wire` returns false (a parameter inversion failed) for some boundary
wire of that face; and no per-face failure aborts the shell (the output
always has the input's length). -/
theorem C3_shell_tessellation_totality {T H C : Type} [Inhabited H]
    [DecidableEq H] (K : Truck.MeshKit T H) (ck : Truck.CurveKit C)
    (sp : Truck.MSurface → Truck.Pt3 → Option Truck.Pt2 → Option Truck.Pt2)
    (shell : Truck.TShell C Truck.MSurface) (tol : ℚ)
    (h1 : EidInjective shell) (h2 : VidInjective shell) :
    (Truck.shell_tessellation K ck sp shell tol).length = shell.length ∧
    (∀ i, (Truck.shell_tessellation K ck sp shell tol).get? i
        = (shell.get? i).map (canonical_face K ck sp tol)) ∧
    (∀ face ∈ shell,
      (canonical_face K ck sp tol face).boundaries
          = rebuilt_wires ck tol face ∧
      (canonical_face K ck sp tol face).orientation = face.orientation ∧
      ((canonical_face K ck sp tol face).surface = none ↔
        ∃ w ∈ rebuilt_wires ck tol face,
          ((⟨[], []⟩ : Truck.Polyline).add_wire face.surface
            (w.map (Truck.OEdge.oriented_curve Truck.PolylineCurve.inverse))
            sp).2 = false)) := by
  have hcan := shell_tessellation_canonical K ck sp shell tol h1 h2
  refine ⟨by rw [hcan]; simp, ?_, ?_⟩
  · intro i
    rw [hcan]
    exact List.get?_map (canonical_face K ck sp tol) shell i
  · intro face hf
    refine ⟨?_, ?_, ?_⟩
    · unfold Truck.canonical_face
      by_cases ho : face.orientation <;> simp [ho, Truck.TFace.invert]
    · unfold Truck.canonical_face
      by_cases ho : face.orientation <;> simp [ho, Truck.TFace.invert]
    · have hsur : (canonical_face K ck sp tol face).surface
          = Truck.face_polygon K sp face.surface (rebuilt_wires ck tol face) tol := by
        unfold Truck.canonical_face
        by_cases ho : face.orientation <;> simp [ho, Truck.TFace.invert]
      rw [hsur]
      exact face_polygon_none_iff K sp face.surface (rebuilt_wires ck tol face) tol

open Truck in
/-- Witness for C3: the concrete two-face shell yields two faces, and the
claimed per-face properties hold for its first face. -/
theorem C3_shell_tessellation_totality_witness :
    EidInjective wShell ∧ VidInjective wShell ∧
    (Truck.shell_tessellation unitKit unitCurveKit sp_proj wShell 1).length
      = wShell.length := by
  have h := C3_shell_tessellation_totality unitKit unitCurveKit sp_proj wShell 1
    (by decide) (by decide)
  exact ⟨by decide, by decide, h.1⟩

open Truck in
/-- Witness for C9: on a surface whose hinted searches fail, the fallback
result is returned; on a surface whose hinted searches succeed, the hinted
result is returned. -/
theorem C9_by_search_parameter_fallback_witness :
    fallbackSurface.search_parameter (0, 0, 0) (some ((5 : ℚ), (5 : ℚ))) 100
        = none ∧
    by_search_parameter fallbackSurface (0, 0, 0) (some (5, 5)) = some (1, 2) ∧
    hintedSurface.search_parameter (0, 0, 0) (some (5, 5)) 100 = some (7, 8) ∧
    by_search_parameter hintedSurface (0, 0, 0) (some (5, 5)) = some (7, 8) ∧
    by_search_nearest_parameter fallbackSurface (0, 0, 0) (some (5, 5))
        = some (3, 4) := by
  have hf := C9_by_search_parameter_fallback fallbackSurface (0, 0, 0)
    (some (5, 5))
  have hh := C9_by_search_parameter_fallback hintedSurface (0, 0, 0)
    (some (5, 5))
  refine ⟨rfl, ?_, rfl, ?_, ?_⟩
  · rw [hf.2.1 rfl]
    rfl
  · exact hh.1 (7, 8) rfl
  · rw [hf.2.2.2.2.1 rfl]
    rfl
